import Mathlib

/-!
Verification of the batis Host engine (`src/index.ts`).

The engine lets a stateless "agent" function hold persistent state and
effects across repeated invocations.  A `Host` owns a `Memory` (an ordered
list of typed cells plus a cursor), drives a multi-pass convergence loop
around agent invocations, batches state updates, runs effects in slot
order, and reports value/reset/error events to a single listener.

The definitions below are a shallow embedding of `src/index.ts`.  The
collaborating modules `memory.ts` and `are-dependencies-equal.ts` are not
part of the sources, so their operations are modelled from the
specification (each such definition says so in its doc comment).  Agent
functions are embedded as programs (`AgentProg`) whose constructors are
exactly the stateful primitives the Host exposes, with host-state passing
made explicit and exceptions modelled by explicit error values.
-/

namespace Batis

/-- Values produced by agents and stored in state/memo cells. -/
abbrev Value := Nat

/-- Thrown exception values. -/
abbrev Err := Nat

/-- A queued state update: either a replacement value or an updater
function from the previous state (`SetState` / `CreateState`). -/
inductive StateChange where
  | replace (v : Value)
  | update (f : Value → Value)

/-- Behaviour of a cleanup function returned by an effect: the `setState`
calls it performs (cell index paired with the queued change) and whether
it throws afterwards. -/
structure CleanupSpec where
  calls : List (Nat × StateChange)
  throws : Option Err

/-- Behaviour of an effect function: the `setState` calls it performs,
whether it throws, and the cleanup it returns when it does not throw. -/
structure EffectSpec where
  calls : List (Nat × StateChange)
  throws : Option Err
  cleanup : Option CleanupSpec

/-- Memory cells, mirroring `StateMemoryCell`, `EffectMemoryCell` and
`MemoMemoryCell` of `memory.ts`. -/
inductive MemoryCell where
  | state (state : Value) (stateChanges : List StateChange)
  | effect (outdated : Bool) (eff : EffectSpec)
      (dependencies : Option (List Value)) (cleanup : Option CleanupSpec)
  | memo (value : Value) (dependencies : List Value)

/-- Modelled from the spec: the Dependency Comparator of
`are-dependencies-equal.ts` (the file is not among the sources).  Returns
false (unequal) whenever either side is absent, the lengths differ, or
any pairwise element differs. -/
def areDependenciesEqual : Option (List Value) → Option (List Value) → Bool
  | some a, some b => a.length == b.length && (List.zip a b).all fun p => p.1 == p.2
  | _, _ => false

/-- Modelled from the spec: the `Memory` store of `memory.ts` (the file is
not among the sources): an ordered sequence of cells plus a cursor. -/
structure Memory where
  memory : List MemoryCell
  pointer : Nat

/-- A fresh, empty memory. -/
def Memory.empty : Memory := ⟨[], 0⟩

/-- Modelled from the spec: read the cell at the cursor, or signal absent. -/
def Memory.read (m : Memory) : Option MemoryCell := m.memory.get? m.pointer

/-- Modelled from the spec: store a newly constructed cell at the tail. -/
def Memory.write (m : Memory) (c : MemoryCell) : Memory :=
  ⟨m.memory ++ [c], m.pointer⟩

/-- Modelled from the spec: advance the cursor by one. -/
def Memory.movePointer (m : Memory) : Memory := ⟨m.memory, m.pointer + 1⟩

/-- Modelled from the spec: soft reset — rewind the cursor without
discarding cells (the `memory.reset()` call between convergence passes). -/
def Memory.resetPointer (m : Memory) : Memory := ⟨m.memory, 0⟩

/-- Fold one queued change into a state value. -/
def applyChange (s : Value) : StateChange → Value
  | .replace v => v
  | .update f => f s

/-- Apply the pending queue of a single cell, reporting whether its state
changed (by value identity).  Non-state cells are untouched. -/
def applyCellChanges : MemoryCell → MemoryCell × Bool
  | .state s q =>
      let s' := q.foldl applyChange s
      (.state s' [], s' != s)
  | c => (c, false)

/-- Modelled from the spec: `applyStateChanges` — fold every state cell's
pending queue into its state left-to-right, clear the queues, and report
whether any cell's state changed. -/
def Memory.applyStateChanges (m : Memory) : Memory × Bool :=
  let rs := m.memory.map applyCellChanges
  (⟨rs.map Prod.fst, m.pointer⟩, rs.any Prod.snd)

/-- The state of one Host together with the process-wide bookkeeping it
interacts with: `active` is whether this Host is the current `activeHost`,
`scheduled` counts the asynchronous re-render microtasks scheduled so far,
and `agentCalls` counts agent invocations (instrumentation). -/
structure HostState where
  mem : Memory
  active : Bool
  scheduled : Nat
  agentCalls : Nat

/-- The initial state of a freshly constructed Host. -/
def HostState.init : HostState := ⟨Memory.empty, false, 0, 0⟩

/-- The setter closure created by `useState`, applied to the index of its
captured cell: appends the change to that cell's pending queue and, when
the owning Host is not the active Host, schedules an asynchronous
re-render microtask. -/
def setState (st : HostState) (idx : Nat) (c : StateChange) : HostState :=
  match st.mem.memory.get? idx with
  | some (.state s q) =>
      { st with
        mem := ⟨st.mem.memory.set idx (.state s (q ++ [c])), st.mem.pointer⟩,
        scheduled := if st.active then st.scheduled else st.scheduled + 1 }
  | _ => st

/-- Perform a sequence of `setState` calls (as an effect or cleanup body
does). -/
def runCalls (st : HostState) (cs : List (Nat × StateChange)) : HostState :=
  cs.foldl (fun s p => setState s p.1 p.2) st

/-- The initial state argument of `useState`: a plain value or an
initializer function (dispatched by `isFunction`). -/
inductive InitialState where
  | plain (v : Value)
  | thunk (f : Unit → Value)

/-- Evaluate an initial state, invoking the initializer if one was given
(mirrors the `isFunction` dispatch). -/
def InitialState.eval : InitialState → Value
  | .plain v => v
  | .thunk f => f ()

/-- The error thrown when a primitive finds a cell of the wrong type at
the cursor (unstable call order — undefined behaviour per the spec). -/
def corruptErr : Err := 0

/-- `Host.useState`: on first call at the slot, create a state cell
(evaluating the initializer); afterwards return the cell's current state.
Returns the state, the cell index (the setter's captured cell), and the
new host state; always advances the cursor. -/
def useState (initialState : InitialState) (st : HostState) :
    Except Err (Value × Nat × HostState) :=
  match st.mem.read with
  | none =>
      let v := initialState.eval
      let idx := st.mem.memory.length
      .ok (v, idx, { st with mem := (st.mem.write (.state v [])).movePointer })
  | some (.state s _) => .ok (s, st.mem.pointer, { st with mem := st.mem.movePointer })
  | some _ => .error corruptErr

/-- `Host.useEffect`: on first call, create an outdated effect cell; on
later calls, replace effect and dependencies and mark outdated when the
dependencies are unequal or the cell is still outdated, else leave the
cell untouched; always advance the cursor. -/
def useEffect (eff : EffectSpec) (dependencies : Option (List Value))
    (st : HostState) : Except Err HostState :=
  match st.mem.read with
  | none =>
      .ok { st with mem := (st.mem.write (.effect true eff dependencies none)).movePointer }
  | some (.effect outdated _ deps0 cl0) =>
      if !areDependenciesEqual deps0 dependencies || outdated then
        .ok { st with mem :=
          ⟨st.mem.memory.set st.mem.pointer (.effect true eff dependencies cl0),
           st.mem.pointer + 1⟩ }
      else
        .ok { st with mem := st.mem.movePointer }
  | some _ => .error corruptErr

/-- `Host.useMemo`: on first call, compute and store; on later calls,
recompute only when the dependencies are unequal, else return the stored
value.  The boolean reports whether the producer was invoked; the cursor
always advances. -/
def useMemo (createValue : Unit → Value) (dependencies : List Value)
    (st : HostState) : Except Err (Value × Bool × HostState) :=
  match st.mem.read with
  | none =>
      let v := createValue ()
      .ok (v, true, { st with mem := (st.mem.write (.memo v dependencies)).movePointer })
  | some (.memo v0 deps0) =>
      if !areDependenciesEqual (some deps0) (some dependencies) then
        let v := createValue ()
        .ok (v, true, { st with mem :=
          ⟨st.mem.memory.set st.mem.pointer (.memo v dependencies),
           st.mem.pointer + 1⟩ })
      else
        .ok (v0, false, { st with mem := st.mem.movePointer })
  | some _ => .error corruptErr

/-- Agent functions, embedded as programs over the stateful primitives.
`useState` binds the current state and the setter's cell index;
`callSetState` invokes a setter obtained from `useState`; `fail` models
the agent throwing. -/
inductive AgentProg : Type where
  | ret (v : Value)
  | fail (e : Err)
  | useState (initialState : InitialState) (k : Value → Nat → AgentProg)
  | callSetState (idx : Nat) (c : StateChange) (k : AgentProg)
  | useEffect (eff : EffectSpec) (dependencies : Option (List Value)) (k : AgentProg)
  | useMemo (createValue : Unit → Value) (dependencies : List Value) (k : Value → AgentProg)

/-- Run one agent invocation.  The host state is returned on every path,
including when the agent throws (second component `.error`). -/
def runAgent : AgentProg → HostState → HostState × Except Err Value
  | .ret v, st => (st, .ok v)
  | .fail e, st => (st, .error e)
  | .useState i k, st =>
      match useState i st with
      | .error e => (st, .error e)
      | .ok (v, idx, st') => runAgent (k v idx) st'
  | .callSetState idx c k, st => runAgent k (setState st idx c)
  | .useEffect eff deps k, st =>
      match useEffect eff deps st with
      | .error e => (st, .error e)
      | .ok st' => runAgent k st'
  | .useMemo create deps k, st =>
      match useMemo create deps st with
      | .error e => (st, .error e)
      | .ok (v, _, st') => runAgent (k v) st'

/-- Modelled from the spec: the processing of one outdated effect cell
during `runOutdatedEffects` (`memory.ts` is not among the sources): the
previous cleanup, if any, is invoked first and discarded; then the effect
function is invoked and its returned cleanup stored while the outdated
flag is cleared.  The second component is the first uncaught exception;
the partial state is preserved alongside it. -/
def runEffectCell (st : HostState) (i : Nat) (eff : EffectSpec)
    (deps : Option (List Value)) (cl : Option CleanupSpec) :
    HostState × Option Err :=
  let stA : HostState :=
    { st with mem := ⟨st.mem.memory.set i (.effect true eff deps none), st.mem.pointer⟩ }
  let st1 := match cl with
    | some c => runCalls stA c.calls
    | none => stA
  let clThrow : Option Err := match cl with
    | some c => c.throws
    | none => none
  match clThrow with
  | some e => (st1, some e)
  | none =>
    let st2 := runCalls st1 eff.calls
    match eff.throws with
    | some e => (st2, some e)
    | none =>
      ({ st2 with mem :=
          ⟨st2.mem.memory.set i (.effect false eff deps eff.cleanup), st2.mem.pointer⟩ },
       none)

/-- Modelled from the spec: the walk of `triggerEffects` from index `i`
(the `Nat` argument bounds the remaining indices): outdated effect cells
are processed in ascending slot order; the result carries the indices of
the effects that ran and the first uncaught exception. -/
def triggerAux : Nat → Nat → HostState → HostState × List Nat × Option Err
  | 0, _, st => (st, [], none)
  | n + 1, i, st =>
    match st.mem.memory.get? i with
    | some (.effect true eff deps cl) =>
      let r0 := runEffectCell st i eff deps cl
      match r0.2 with
      | some e => (r0.1, [], some e)
      | none =>
        let r := triggerAux n (i + 1) r0.1
        (r.1, i :: r.2.1, r.2.2)
    | _ => triggerAux n (i + 1) st

/-- Modelled from the spec: `triggerEffects` — visit effect cells in
ascending slot order and run the outdated ones. -/
def triggerEffects (st : HostState) : HostState × List Nat × Option Err :=
  triggerAux st.mem.memory.length 0 st

/-- Modelled from the spec: the cleanup phase of `teardownHard`,
processing cells from index `i`: invoke and discard each stored cleanup;
a cleanup's exception is not caught here and aborts the walk. -/
def teardownAux : Nat → Nat → HostState → HostState × Option Err
  | 0, _, st => (st, none)
  | n + 1, i, st =>
    match st.mem.memory.get? i with
    | some (.effect od eff deps (some c)) =>
        let stA : HostState :=
          { st with mem := ⟨st.mem.memory.set i (.effect od eff deps none), st.mem.pointer⟩ }
        let st1 := runCalls stA c.calls
        match c.throws with
        | some e => (st1, some e)
        | none => teardownAux n (i + 1) st1
    | _ => teardownAux n (i + 1) st

/-- Modelled from the spec: `teardownHard` (`memory.reset(true)`): invoke
every stored cleanup in slot order, then discard the whole cell sequence
and rewind the cursor; a throwing cleanup aborts the teardown and its
exception propagates. -/
def teardownHard (st : HostState) : HostState × Option Err :=
  let r := teardownAux st.mem.memory.length 0 st
  match r.2 with
  | some e => (r.1, some e)
  | none => ({ r.1 with mem := Memory.empty }, none)

/-- Events delivered to the Host's listener. -/
inductive Event where
  | value (value : Value) (async : Bool) (intermediate : Bool)
  | reset
  | error (error : Err) (async : Bool)
deriving DecidableEq

/-- The listener: receives an event and possibly throws. -/
abbrev Listener := Event → Option Err

/-- Where an exception escaping the render procedure originated
(instrumentation only; the Host's behaviour does not depend on it). -/
inductive ThrowSrc where
  | agent
  | listener
  | effects
deriving DecidableEq

/-- Outcome of the render procedure `#render`: normal completion or an
escaping exception, with the events handed to the listener (`log`) and
the values of the completed agent passes in chronological order
(`vals`); `fuelOut` marks exhausted loop fuel (divergence). -/
inductive LoopOut where
  | done (st : HostState) (log : List Event) (vals : List Value)
  | thrown (e : Err) (src : ThrowSrc) (st : HostState) (log : List Event) (vals : List Value)
  | fuelOut

/-- One convergence step of `#render` after the intermediate emission:
invoke the agent with the active-Host reference set (cleared on every
exit), soft-reset the cursor, apply pending state changes; when the inner
loop stabilises, run outdated effects and re-check for changes. -/
inductive StepOut where
  | again (v : Value) (st : HostState)
  | finished (v : Value) (st : HostState)
  | threw (e : Err) (src : ThrowSrc) (st : HostState)

/-- The settling part of one `#render` loop iteration, after the agent
invocation produced `v`: soft-reset the cursor, apply pending state
changes; when nothing changed, run the outdated effects and re-check. -/
def afterAgent (v : Value) (st2 : HostState) : StepOut :=
  let st3 : HostState := { st2 with mem := st2.mem.resetPointer }
  let ac := st3.mem.applyStateChanges
  let st4 : HostState := { st3 with mem := ac.1 }
  if ac.2 then .again v st4
  else
    let te := triggerEffects st4
    match te.2.2 with
    | some e => .threw e .effects te.1
    | none =>
      let ac2 := te.1.mem.applyStateChanges
      let st6 : HostState := { te.1 with mem := ac2.1 }
      if ac2.2 then .again v st6 else .finished v st6

/-- The body of one `#render` loop iteration (agent invocation onward):
the agent runs with the active-Host reference set and the reference is
cleared on every exit path, the throwing one included. -/
def renderStep (agent : AgentProg) (st : HostState) : StepOut :=
  let st0 : HostState := { st with active := true, agentCalls := st.agentCalls + 1 }
  let pr := runAgent agent st0
  let st2 : HostState := { pr.1 with active := false }
  match pr.2 with
  | .error e => .threw e .agent st2
  | .ok v => afterAgent v st2

/-- The events a loop iteration owes to the previous pass: its value as
an intermediate event, when there is a previous pass. -/
def prevEmit (async : Bool) : Option Value → List Event
  | none => []
  | some pv => [.value pv async true]

/-- Prepend an iteration's emissions and completed pass value to the
outcome of the remaining loop. -/
def addPre (pre : List Event) (v : Value) : LoopOut → LoopOut
  | .done st log vals => .done st (pre ++ log) (v :: vals)
  | .thrown e src st log vals => .thrown e src st (pre ++ log) (v :: vals)
  | .fuelOut => .fuelOut

/-- The part of a `#render` loop iteration from the agent invocation on:
run the step; on a completed pass either continue (`recur`) when state
changed, or report the final value (the listener may throw on it). -/
def renderLoopBody (listener : Listener) (agent : AgentProg)
    (recur : Value → HostState → LoopOut) (pre : List Event) (async : Bool)
    (st : HostState) : LoopOut :=
  match renderStep agent st with
  | .threw e src st' => .thrown e src st' pre []
  | .again v st' => addPre pre v (recur v st')
  | .finished v st' =>
    let fin : Event := Event.value v async false
    match listener fin with
    | some e => .thrown e .listener st' (pre ++ [fin]) [v]
    | none => .done st' (pre ++ [fin]) [v]

/-- The render procedure `#render`, parameterized by the async flag, with
fuel bounding the number of agent invocations.  Each iteration first
reports the previous pass's value as intermediate, then invokes the
agent; once state and effects stabilise the last value is reported as
non-intermediate. -/
def renderLoop (listener : Listener) (agent : AgentProg) :
    Nat → Bool → Option Value → HostState → LoopOut
  | 0, _, _, _ => .fuelOut
  | fuel + 1, async, prev, st =>
    match prev with
    | none =>
      renderLoopBody listener agent
        (fun v st' => renderLoop listener agent fuel async (some v) st') [] async st
    | some pv =>
      match listener (.value pv async true) with
      | some e => .thrown e .listener st [.value pv async true] []
      | none =>
        renderLoopBody listener agent
          (fun v st' => renderLoop listener agent fuel async (some v) st')
          [.value pv async true] async st

/-- Result of a public entry point: the final host state, the events the
listener received, and the exception escaping to the caller, if any. -/
structure RenderOut where
  st : HostState
  log : List Event
  escaped : Option Err

/-- `Host.render(args)`: run the render procedure synchronously; on an
exception, hard-reset the memory and emit an error event with the async
flag false.  An exception thrown by the teardown itself, or by the
listener handling the error event, escapes to the caller.  `none` marks
exhausted fuel. -/
def render (fuel : Nat) (listener : Listener) (agent : Value → AgentProg)
    (args : Value) (st : HostState) : Option RenderOut :=
  match renderLoop listener (agent args) fuel false none st with
  | .fuelOut => none
  | .done st' log _ => some ⟨st', log, none⟩
  | .thrown e _ st' log _ =>
    let td := teardownHard st'
    match td.2 with
    | some e2 => some ⟨td.1, log, some e2⟩
    | none =>
      let ev : Event := .error e false
      some ⟨td.1, log ++ [ev], listener ev⟩

/-- `Host.#renderAsync`: the body of a scheduled re-render microtask —
apply pending state changes and, only if anything changed, run the render
procedure with the async flag true; errors are caught the same way as in
`render` but carry the async flag true. -/
def renderAsync (fuel : Nat) (listener : Listener) (agent : Value → AgentProg)
    (args : Value) (st : HostState) : Option RenderOut :=
  let ac := st.mem.applyStateChanges
  let st1 : HostState := { st with mem := ac.1 }
  if ac.2 then
    match renderLoop listener (agent args) fuel true none st1 with
    | .fuelOut => none
    | .done st' log _ => some ⟨st', log, none⟩
    | .thrown e _ st' log _ =>
      let td := teardownHard st'
      match td.2 with
      | some e2 => some ⟨td.1, log, some e2⟩
      | none =>
        let ev : Event := .error e true
        some ⟨td.1, log ++ [ev], listener ev⟩
  else
    some ⟨st1, [], none⟩

/-- Run a sequence of `render` calls, collecting each call's events;
`none` when fuel runs out or an exception escapes a call. -/
def renderAll (fuel : Nat) (listener : Listener) (agent : Value → AgentProg) :
    List Value → HostState → Option (HostState × List (List Event))
  | [], st => some (st, [])
  | a :: rest, st =>
    match render fuel listener agent a st with
    | none => none
    | some out =>
      match out.escaped with
      | some _ => none
      | none =>
        match renderAll fuel listener agent rest out.st with
        | none => none
        | some (st', logs) => some (st', out.log :: logs)

/-- Whether a cell is a state cell. -/
def MemoryCell.isState : MemoryCell → Bool
  | .state _ _ => true
  | _ => false

/-- Whether a memory contains no state cells (as when the agent never
uses the state primitive). -/
def noStateCells (m : Memory) : Bool := m.memory.all fun c => !c.isState

/-- The outdated flag of the effect cell at index `j`, when one is
there. -/
def effectOutdatedAt (st : HostState) (j : Nat) : Option Bool :=
  match st.mem.memory.get? j with
  | some (.effect od _ _ _) => some od
  | _ => none

/-- Syntactic predicate: the program never uses the state primitive. -/
def AgentProg.noState : AgentProg → Prop
  | .ret _ => True
  | .fail _ => True
  | .useState _ _ => False
  | .callSetState _ _ k => k.noState
  | .useEffect _ _ k => k.noState
  | .useMemo _ _ k => ∀ v, (k v).noState

/-- The events of a render-procedure outcome. -/
def LoopOut.logOf : LoopOut → List Event
  | .done _ log _ => log
  | .thrown _ _ _ log _ => log
  | .fuelOut => []

/-- The resulting host states of a render-procedure outcome (empty when
the fuel ran out). -/
def LoopOut.states : LoopOut → List HostState
  | .done st _ _ => [st]
  | .thrown _ _ st _ _ => [st]
  | .fuelOut => []

/-- The host state carried by a loop-step outcome. -/
def StepOut.stOf : StepOut → HostState
  | .again _ st => st
  | .finished _ st => st
  | .threw _ _ st => st

/-- A listener that never throws. -/
def noThrowListener : Listener := fun _ => none

/-- A listener that throws 5 on every event, the error event included. -/
def alwaysThrowListener : Listener := fun _ => some 5

/-- An agent that converges after three passes: its state counts 0, 1, 2
through synchronous setter calls. -/
def threePassAgent : Value → AgentProg := fun _ =>
  .useState (.plain 0) fun s idx =>
    if s < 2 then .callSetState idx (.replace (s + 1)) (.ret s) else .ret s

/-- An agent whose effect invokes the setter during the render
procedure. -/
def effectSetsStateAgent : Value → AgentProg := fun _ =>
  .useState (.plain 5) fun s idx =>
    .useEffect ⟨[(idx, .replace 6)], none, none⟩ (some []) (.ret s)

/-- An agent that installs an effect whose cleanup throws 99 when the
argument is 0, and itself throws 7 on any other argument. -/
def throwingCleanupAgent : Value → AgentProg := fun args =>
  match args with
  | 0 => .useEffect ⟨[], none, some ⟨[], some 99⟩⟩ (some []) (.ret 0)
  | _ => .fail 7

/-- An agent that, on argument 0, installs an effect whose cleanup
throws 99; on other arguments it completes one pass (scheduling a second)
and then throws 7 on the second pass. -/
def latePassThrowAgent : Value → AgentProg := fun args =>
  .useState (.plain 0) fun s idx =>
    match args, s with
    | 0, _ => .useEffect ⟨[], none, some ⟨[], some 99⟩⟩ (some []) (.ret s)
    | _, 0 => .callSetState idx (.replace 1) (.ret 0)
    | _, _ => .fail 7

/-- An agent that throws 7 on its second pass after one completed pass
(no effects involved). -/
def secondPassThrowAgent : Value → AgentProg := fun _ =>
  .useState (.plain 0) fun s idx =>
    match s with
    | 0 => .callSetState idx (.replace 1) (.ret 0)
    | _ => .fail 7

/-- Whether an event is an error event. -/
def Event.isError : Event → Bool
  | .error _ _ => true
  | _ => false

/-- A listener that throws 5 on non-intermediate value events only. -/
def finalThrowListener : Listener := fun ev =>
  match ev with
  | .value _ _ false => some 5
  | _ => none

/-- An agent holding one state cell and returning its value. -/
def statefulAgent : Value → AgentProg := fun _ =>
  .useState (.plain 1) fun s _ => .ret s

/-! ### The dependency comparator -/

theorem areDependenciesEqual_cons (x y : Value) (xs ys : List Value) :
    areDependenciesEqual (some (x :: xs)) (some (y :: ys)) =
      ((x == y) && areDependenciesEqual (some xs) (some ys)) := by
  rw [Bool.eq_iff_iff]
  unfold areDependenciesEqual
  simp only [List.zip_cons_cons, List.all_cons, List.length_cons,
    Bool.and_eq_true, beq_iff_eq]
  constructor
  · rintro ⟨h1, h2, h3⟩
    exact ⟨h2, by omega, h3⟩
  · rintro ⟨h2, h1, h3⟩
    exact ⟨by omega, h2, h3⟩

theorem areDependenciesEqual_some_iff :
    ∀ (a b : List Value), areDependenciesEqual (some a) (some b) = true ↔ a = b
  | [], [] => by simp [areDependenciesEqual]
  | [], _ :: _ => by simp [areDependenciesEqual]
  | _ :: _, [] => by simp [areDependenciesEqual]
  | x :: xs, y :: ys => by
    rw [areDependenciesEqual_cons]
    simp [areDependenciesEqual_some_iff xs ys]

theorem areDependenciesEqual_none_left (b : Option (List Value)) :
    areDependenciesEqual none b = false := by
  cases b <;> rfl

theorem areDependenciesEqual_none_right (a : Option (List Value)) :
    areDependenciesEqual a none = false := by
  cases a <;> rfl

theorem areDependenciesEqual_eq_false_iff (x y : Option (List Value)) :
    areDependenciesEqual x y = false ↔
      x = none ∨ y = none ∨ ∃ a b, x = some a ∧ y = some b ∧ a ≠ b := by
  cases x <;> cases y <;>
    simp [areDependenciesEqual_none_left, areDependenciesEqual_none_right,
      Bool.eq_false_iff, areDependenciesEqual_some_iff]

/-! ### Elementary preservation facts -/

theorem setState_active (st : HostState) (idx : Nat) (c : StateChange) :
    (setState st idx c).active = st.active := by
  unfold setState
  split <;> rfl

theorem setState_agentCalls (st : HostState) (idx : Nat) (c : StateChange) :
    (setState st idx c).agentCalls = st.agentCalls := by
  unfold setState
  split <;> rfl

theorem setState_pointer (st : HostState) (idx : Nat) (c : StateChange) :
    (setState st idx c).mem.pointer = st.mem.pointer := by
  unfold setState
  split <;> rfl

theorem setState_length (st : HostState) (idx : Nat) (c : StateChange) :
    (setState st idx c).mem.memory.length = st.mem.memory.length := by
  unfold setState
  split
  · simp [List.length_set]
  · rfl

theorem setState_state_cell (st : HostState) (idx : Nat) (c : StateChange)
    (s : Value) (q : List StateChange)
    (h : st.mem.memory.get? idx = some (.state s q)) :
    setState st idx c = { st with
      mem := ⟨st.mem.memory.set idx (.state s (q ++ [c])), st.mem.pointer⟩,
      scheduled := if st.active then st.scheduled else st.scheduled + 1 } := by
  unfold setState
  rw [h]

theorem setState_get? (st : HostState) (idx : Nat) (c : StateChange) (j : Nat) :
    (setState st idx c).mem.memory.get? j = st.mem.memory.get? j ∨
      ∃ s q, st.mem.memory.get? j = some (.state s q) ∧
        (setState st idx c).mem.memory.get? j = some (.state s (q ++ [c])) := by
  unfold setState
  split
  · next s q heq =>
    rcases eq_or_ne idx j with rfl | hne
    · right
      have hlt : idx < st.mem.memory.length := by
        by_contra hge
        rw [List.get?_eq_none.2 (Nat.le_of_not_lt hge)] at heq
        cases heq
      refine ⟨s, q, heq, ?_⟩
      show (st.mem.memory.set idx _).get? idx = _
      rw [List.get?_set_eq_of_lt _ hlt]
    · left
      show (st.mem.memory.set idx _).get? j = _
      rw [List.get?_set_ne _ _ hne]
  · left
    rfl

theorem setState_get?_effect (st : HostState) (idx : Nat) (c : StateChange)
    (j : Nat) (od : Bool) (e : EffectSpec) (d : Option (List Value))
    (cl : Option CleanupSpec)
    (hj : st.mem.memory.get? j = some (.effect od e d cl)) :
    (setState st idx c).mem.memory.get? j = some (.effect od e d cl) := by
  rcases setState_get? st idx c j with h | ⟨s, q, h1, _⟩
  · rw [h, hj]
  · rw [h1] at hj
    cases hj

theorem setState_effectOutdatedAt (st : HostState) (idx : Nat)
    (c : StateChange) (j : Nat) :
    effectOutdatedAt (setState st idx c) j = effectOutdatedAt st j := by
  unfold effectOutdatedAt
  rcases setState_get? st idx c j with h | ⟨s, q, h1, h2⟩
  · rw [h]
  · rw [h1, h2]

theorem setState_noState (st : HostState) (idx : Nat) (c : StateChange)
    (h : noStateCells st.mem = true) : setState st idx c = st := by
  unfold setState
  split
  · next s q heq =>
    have hmem := List.get?_mem heq
    have := List.all_eq_true.1 h _ hmem
    simp [MemoryCell.isState] at this
  · rfl

theorem runCalls_cons (st : HostState) (p : Nat × StateChange)
    (rest : List (Nat × StateChange)) :
    runCalls st (p :: rest) = runCalls (setState st p.1 p.2) rest := rfl

theorem runCalls_active (cs : List (Nat × StateChange)) :
    ∀ st : HostState, (runCalls st cs).active = st.active := by
  induction cs with
  | nil => intro st; rfl
  | cons p rest ih =>
    intro st
    rw [runCalls_cons, ih, setState_active]

theorem runCalls_agentCalls (cs : List (Nat × StateChange)) :
    ∀ st : HostState, (runCalls st cs).agentCalls = st.agentCalls := by
  induction cs with
  | nil => intro st; rfl
  | cons p rest ih =>
    intro st
    rw [runCalls_cons, ih, setState_agentCalls]

theorem runCalls_pointer (cs : List (Nat × StateChange)) :
    ∀ st : HostState, (runCalls st cs).mem.pointer = st.mem.pointer := by
  induction cs with
  | nil => intro st; rfl
  | cons p rest ih =>
    intro st
    rw [runCalls_cons, ih, setState_pointer]

theorem runCalls_length (cs : List (Nat × StateChange)) :
    ∀ st : HostState, (runCalls st cs).mem.memory.length = st.mem.memory.length := by
  induction cs with
  | nil => intro st; rfl
  | cons p rest ih =>
    intro st
    rw [runCalls_cons, ih, setState_length]

theorem runCalls_get?_effect (cs : List (Nat × StateChange)) :
    ∀ (st : HostState) (j : Nat) (od : Bool) (e : EffectSpec)
      (d : Option (List Value)) (cl : Option CleanupSpec),
      st.mem.memory.get? j = some (.effect od e d cl) →
      (runCalls st cs).mem.memory.get? j = some (.effect od e d cl) := by
  induction cs with
  | nil => intro st j od e d cl h; exact h
  | cons p rest ih =>
    intro st j od e d cl h
    rw [runCalls_cons]
    exact ih _ j od e d cl (setState_get?_effect st p.1 p.2 j od e d cl h)

theorem runCalls_effectOutdatedAt (cs : List (Nat × StateChange)) :
    ∀ (st : HostState) (j : Nat),
      effectOutdatedAt (runCalls st cs) j = effectOutdatedAt st j := by
  induction cs with
  | nil => intro st j; rfl
  | cons p rest ih =>
    intro st j
    rw [runCalls_cons, ih, setState_effectOutdatedAt]

theorem runCalls_noState (cs : List (Nat × StateChange)) :
    ∀ st : HostState, noStateCells st.mem = true → runCalls st cs = st := by
  induction cs with
  | nil => intro st _; rfl
  | cons p rest ih =>
    intro st h
    rw [runCalls_cons, setState_noState st p.1 p.2 h, ih st h]

/-! ### Applying pending state changes -/

theorem applyCellChanges_not_state (c : MemoryCell) (h : c.isState = false) :
    applyCellChanges c = (c, false) := by
  cases c with
  | state s q => simp [MemoryCell.isState] at h
  | effect od e d cl => rfl
  | memo v d => rfl

theorem applyCellChanges_fst (c : MemoryCell) :
    applyCellChanges (applyCellChanges c).1 = ((applyCellChanges c).1, false) := by
  cases c with
  | state s q => simp [applyCellChanges]
  | effect od e d cl => rfl
  | memo v d => rfl

theorem applyStateChanges_noState (m : Memory) (h : noStateCells m = true) :
    m.applyStateChanges = (m, false) := by
  have hmap : m.memory.map applyCellChanges = m.memory.map (fun c => (c, false)) := by
    apply List.map_congr_left
    intro c hc
    have hc' := List.all_eq_true.1 h c hc
    exact applyCellChanges_not_state c (by simpa using hc')
  unfold Memory.applyStateChanges
  rw [hmap]
  simp [List.map_map, Function.comp_def, List.any_map]

theorem applyStateChanges_drain (m : Memory) :
    (m.applyStateChanges.1).applyStateChanges = (m.applyStateChanges.1, false) := by
  unfold Memory.applyStateChanges
  simp only [List.map_map]
  have hmap : m.memory.map (applyCellChanges ∘ (Prod.fst ∘ applyCellChanges)) =
      m.memory.map (fun c => ((applyCellChanges c).1, false)) := by
    apply List.map_congr_left
    intro c _
    exact applyCellChanges_fst c
  rw [hmap]
  simp [List.map_map, Function.comp_def, List.any_map]
  intro a _
  rw [applyCellChanges_fst]

theorem applyStateChanges_pointer (m : Memory) :
    m.applyStateChanges.1.pointer = m.pointer := rfl

theorem noStateCells_resetPointer (m : Memory) :
    noStateCells m.resetPointer = noStateCells m := rfl

/-! ### Primitive invariants and no-state preservation -/

theorem noState_list_set (l : List MemoryCell) (i : Nat) (c : MemoryCell)
    (hl : l.all (fun x => !x.isState) = true) (hc : c.isState = false) :
    (l.set i c).all (fun x => !x.isState) = true := by
  rw [List.all_eq_true] at hl ⊢
  intro x hx
  rcases List.mem_or_eq_of_mem_set hx with h | rfl
  · exact hl x h
  · simp [hc]

theorem noState_list_append (l : List MemoryCell) (c : MemoryCell)
    (hl : l.all (fun x => !x.isState) = true) (hc : c.isState = false) :
    (l ++ [c]).all (fun x => !x.isState) = true := by
  rw [List.all_append, hl, Bool.true_and]
  simp [hc]

theorem useState_ok_inv (i : InitialState) (st : HostState) (v : Value)
    (idx : Nat) (st' : HostState) (h : useState i st = .ok (v, idx, st')) :
    st'.active = st.active ∧ st'.agentCalls = st.agentCalls ∧
      st'.scheduled = st.scheduled := by
  unfold useState at h
  split at h
  · cases h
    exact ⟨rfl, rfl, rfl⟩
  · cases h
    exact ⟨rfl, rfl, rfl⟩
  · cases h

theorem useEffect_ok_inv (eff : EffectSpec) (deps : Option (List Value))
    (st : HostState) (st' : HostState) (h : useEffect eff deps st = .ok st') :
    st'.active = st.active ∧ st'.agentCalls = st.agentCalls ∧
      st'.scheduled = st.scheduled := by
  unfold useEffect at h
  split at h
  · cases h
    exact ⟨rfl, rfl, rfl⟩
  · split at h <;> (cases h; exact ⟨rfl, rfl, rfl⟩)
  · cases h

theorem useMemo_ok_inv (create : Unit → Value) (deps : List Value)
    (st : HostState) (v : Value) (b : Bool) (st' : HostState)
    (h : useMemo create deps st = .ok (v, b, st')) :
    st'.active = st.active ∧ st'.agentCalls = st.agentCalls ∧
      st'.scheduled = st.scheduled := by
  unfold useMemo at h
  split at h
  · cases h
    exact ⟨rfl, rfl, rfl⟩
  · split at h <;> (cases h; exact ⟨rfl, rfl, rfl⟩)
  · cases h

theorem useEffect_ok_noState (eff : EffectSpec) (deps : Option (List Value))
    (st : HostState) (st' : HostState) (h : useEffect eff deps st = .ok st')
    (hm : noStateCells st.mem = true) : noStateCells st'.mem = true := by
  unfold useEffect at h
  split at h
  · cases h
    exact noState_list_append _ _ hm rfl
  · split at h
    · cases h
      exact noState_list_set _ _ _ hm rfl
    · cases h
      exact hm
  · cases h

theorem useMemo_ok_noState (create : Unit → Value) (deps : List Value)
    (st : HostState) (v : Value) (b : Bool) (st' : HostState)
    (h : useMemo create deps st = .ok (v, b, st'))
    (hm : noStateCells st.mem = true) : noStateCells st'.mem = true := by
  unfold useMemo at h
  split at h
  · cases h
    exact noState_list_append _ _ hm rfl
  · split at h
    · cases h
      exact noState_list_set _ _ _ hm rfl
    · cases h
      exact hm
  · cases h

theorem runAgent_shell : ∀ (p : AgentProg) (st : HostState),
    (runAgent p st).1.active = st.active ∧
      (runAgent p st).1.agentCalls = st.agentCalls := by
  intro p
  induction p with
  | ret v => intro st; exact ⟨rfl, rfl⟩
  | fail e => intro st; exact ⟨rfl, rfl⟩
  | useState i k ih =>
    intro st
    cases h : useState i st with
    | error e => simp [runAgent, h]
    | ok x =>
      obtain ⟨v, idx, st'⟩ := x
      simp only [runAgent, h]
      obtain ⟨h1, h2, _⟩ := useState_ok_inv i st v idx st' h
      obtain ⟨g1, g2⟩ := ih v idx st'
      exact ⟨g1.trans h1, g2.trans h2⟩
  | callSetState idx c k ih =>
    intro st
    obtain ⟨g1, g2⟩ := ih (setState st idx c)
    refine ⟨?_, ?_⟩
    · show (runAgent k (setState st idx c)).1.active = st.active
      rw [g1, setState_active]
    · show (runAgent k (setState st idx c)).1.agentCalls = st.agentCalls
      rw [g2, setState_agentCalls]
  | useEffect eff deps k ih =>
    intro st
    cases h : useEffect eff deps st with
    | error e => simp [runAgent, h]
    | ok st' =>
      simp only [runAgent, h]
      obtain ⟨h1, h2, _⟩ := useEffect_ok_inv eff deps st st' h
      obtain ⟨g1, g2⟩ := ih st'
      exact ⟨g1.trans h1, g2.trans h2⟩
  | useMemo create deps k ih =>
    intro st
    cases h : useMemo create deps st with
    | error e => simp [runAgent, h]
    | ok x =>
      obtain ⟨v, b, st'⟩ := x
      simp only [runAgent, h]
      obtain ⟨h1, h2, _⟩ := useMemo_ok_inv create deps st v b st' h
      obtain ⟨g1, g2⟩ := ih v st'
      exact ⟨g1.trans h1, g2.trans h2⟩

theorem runAgent_noState : ∀ (p : AgentProg) (st : HostState),
    p.noState → noStateCells st.mem = true →
    noStateCells (runAgent p st).1.mem = true := by
  intro p
  induction p with
  | ret v => intro st _ h; exact h
  | fail e => intro st _ h; exact h
  | useState i k ih =>
    intro st hp _
    simp [AgentProg.noState] at hp
  | callSetState idx c k ih =>
    intro st hp h
    show noStateCells (runAgent k (setState st idx c)).1.mem = true
    rw [setState_noState st idx c h]
    exact ih st hp h
  | useEffect eff deps k ih =>
    intro st hp h
    cases heq : useEffect eff deps st with
    | error e => simpa [runAgent, heq] using h
    | ok st' =>
      simp only [runAgent, heq]
      exact ih st' hp (useEffect_ok_noState eff deps st st' heq h)
  | useMemo create deps k ih =>
    intro st hp h
    cases heq : useMemo create deps st with
    | error e => simpa [runAgent, heq] using h
    | ok x =>
      obtain ⟨v, b, st'⟩ := x
      simp only [runAgent, heq]
      exact ih v st' (hp v) (useMemo_ok_noState create deps st v b st' heq h)

/-! ### Running outdated effects -/

theorem effectOutdatedAt_eq_of_get? (st st' : HostState) (j : Nat)
    (h : st'.mem.memory.get? j = st.mem.memory.get? j) :
    effectOutdatedAt st' j = effectOutdatedAt st j := by
  unfold effectOutdatedAt
  rw [h]

theorem runEffectCell_active (st : HostState) (i : Nat) (eff : EffectSpec)
    (deps : Option (List Value)) (cl : Option CleanupSpec) :
    (runEffectCell st i eff deps cl).1.active = st.active := by
  unfold runEffectCell
  cases cl with
  | none => rcases het : eff.throws with _ | e <;> simp [het, runCalls_active]
  | some c =>
    rcases hct : c.throws with _ | e
    · rcases het : eff.throws with _ | e <;> simp [hct, het, runCalls_active]
    · simp [hct, runCalls_active]

theorem runEffectCell_agentCalls (st : HostState) (i : Nat) (eff : EffectSpec)
    (deps : Option (List Value)) (cl : Option CleanupSpec) :
    (runEffectCell st i eff deps cl).1.agentCalls = st.agentCalls := by
  unfold runEffectCell
  cases cl with
  | none => rcases het : eff.throws with _ | e <;> simp [het, runCalls_agentCalls]
  | some c =>
    rcases hct : c.throws with _ | e
    · rcases het : eff.throws with _ | e <;> simp [hct, het, runCalls_agentCalls]
    · simp [hct, runCalls_agentCalls]

theorem runCalls_noStateCells (cs : List (Nat × StateChange)) (st : HostState)
    (h : noStateCells st.mem = true) : noStateCells (runCalls st cs).mem = true := by
  rw [runCalls_noState cs st h]
  exact h

theorem runEffectCell_noState (st : HostState) (i : Nat) (eff : EffectSpec)
    (deps : Option (List Value)) (cl : Option CleanupSpec)
    (h : noStateCells st.mem = true) :
    noStateCells (runEffectCell st i eff deps cl).1.mem = true := by
  have hA : noStateCells
      (⟨st.mem.memory.set i (.effect true eff deps none), st.mem.pointer⟩ : Memory) = true :=
    noState_list_set _ _ _ h rfl
  unfold runEffectCell
  cases cl with
  | none =>
    rcases het : eff.throws with _ | e
    · simp only [het]
      exact noState_list_set _ _ _ (runCalls_noStateCells _ _ hA) rfl
    · simp only [het]
      exact runCalls_noStateCells _ _ hA
  | some c =>
    rcases hct : c.throws with _ | e
    · rcases het : eff.throws with _ | e
      · simp only [hct, het]
        exact noState_list_set _ _ _
          (runCalls_noStateCells _ _ (runCalls_noStateCells _ _ hA)) rfl
      · simp only [hct, het]
        exact runCalls_noStateCells _ _ (runCalls_noStateCells _ _ hA)
    · simp only [hct]
      exact runCalls_noStateCells _ _ hA

theorem triggerAux_inv : ∀ (n i : Nat) (st : HostState),
    (triggerAux n i st).1.active = st.active ∧
      (triggerAux n i st).1.agentCalls = st.agentCalls ∧
      (noStateCells st.mem = true → noStateCells (triggerAux n i st).1.mem = true) := by
  intro n
  induction n with
  | zero => intro i st; exact ⟨rfl, rfl, fun h => h⟩
  | succ n ih =>
    intro i st
    simp only [triggerAux]
    split
    · next eff deps cl heq =>
      cases hr : (runEffectCell st i eff deps cl).2 with
      | some e =>
        simp only [hr]
        exact ⟨runEffectCell_active st i eff deps cl,
          runEffectCell_agentCalls st i eff deps cl,
          fun h => runEffectCell_noState st i eff deps cl h⟩
      | none =>
        simp only [hr]
        obtain ⟨h1, h2, h3⟩ := ih (i + 1) (runEffectCell st i eff deps cl).1
        exact ⟨h1.trans (runEffectCell_active st i eff deps cl),
          h2.trans (runEffectCell_agentCalls st i eff deps cl),
          fun h => h3 (runEffectCell_noState st i eff deps cl h)⟩
    · exact ih (i + 1) st

theorem triggerEffects_active (st : HostState) :
    (triggerEffects st).1.active = st.active :=
  (triggerAux_inv _ 0 st).1

theorem triggerEffects_agentCalls (st : HostState) :
    (triggerEffects st).1.agentCalls = st.agentCalls :=
  (triggerAux_inv _ 0 st).2.1

theorem triggerEffects_noState (st : HostState)
    (h : noStateCells st.mem = true) :
    noStateCells (triggerEffects st).1.mem = true :=
  (triggerAux_inv _ 0 st).2.2 h

theorem effectOutdatedAt_set_ne (st : HostState) (i : Nat) (c : MemoryCell)
    (p : Nat) (j : Nat) (hne : j ≠ i) :
    effectOutdatedAt { st with mem := ⟨st.mem.memory.set i c, p⟩ } j =
      effectOutdatedAt st j := by
  apply effectOutdatedAt_eq_of_get?
  exact List.get?_set_ne _ _ (Ne.symm hne)

theorem effectOutdatedAt_of_get?_true (st : HostState) (i : Nat)
    (eff : EffectSpec) (deps : Option (List Value)) (cl : Option CleanupSpec)
    (heq : st.mem.memory.get? i = some (.effect true eff deps cl)) :
    effectOutdatedAt st i = some true := by
  unfold effectOutdatedAt
  rw [heq]

theorem runEffectCell_effectOutdatedAt_ne (st : HostState) (i : Nat)
    (eff : EffectSpec) (deps : Option (List Value)) (cl : Option CleanupSpec)
    (j : Nat) (hne : j ≠ i) :
    effectOutdatedAt (runEffectCell st i eff deps cl).1 j =
      effectOutdatedAt st j := by
  have hA := effectOutdatedAt_set_ne st i (.effect true eff deps none)
    st.mem.pointer j hne
  unfold runEffectCell
  cases cl with
  | none =>
    rcases het : eff.throws with _ | e
    · simp only [het]
      rw [effectOutdatedAt_set_ne _ i _ _ j hne, runCalls_effectOutdatedAt, hA]
    · simp only [het]
      rw [runCalls_effectOutdatedAt, hA]
  | some c =>
    rcases hct : c.throws with _ | e
    · rcases het : eff.throws with _ | e
      · simp only [hct, het]
        rw [effectOutdatedAt_set_ne _ i _ _ j hne, runCalls_effectOutdatedAt,
          runCalls_effectOutdatedAt, hA]
      · simp only [hct, het]
        rw [runCalls_effectOutdatedAt, runCalls_effectOutdatedAt, hA]
    · simp only [hct]
      rw [runCalls_effectOutdatedAt, hA]

theorem runEffectCell_get?_effect_ne (st : HostState) (i : Nat)
    (eff : EffectSpec) (deps : Option (List Value)) (cl : Option CleanupSpec)
    (j : Nat) (od : Bool) (e : EffectSpec) (d : Option (List Value))
    (c2 : Option CleanupSpec) (hne : j ≠ i)
    (hj : st.mem.memory.get? j = some (.effect od e d c2)) :
    (runEffectCell st i eff deps cl).1.mem.memory.get? j =
      some (.effect od e d c2) := by
  have hA : (st.mem.memory.set i (MemoryCell.effect true eff deps none)).get? j =
      some (.effect od e d c2) := by
    rw [List.get?_set_ne _ _ (Ne.symm hne)]
    exact hj
  unfold runEffectCell
  cases cl with
  | none =>
    rcases het : eff.throws with _ | e'
    · simp only [het]
      show ((runCalls _ eff.calls).mem.memory.set i _).get? j = _
      rw [List.get?_set_ne _ _ (Ne.symm hne)]
      exact runCalls_get?_effect _ _ j od e d c2 hA
    · simp only [het]
      exact runCalls_get?_effect _ _ j od e d c2 hA
  | some c =>
    rcases hct : c.throws with _ | e'
    · rcases het : eff.throws with _ | e'
      · simp only [hct, het]
        show ((runCalls _ eff.calls).mem.memory.set i _).get? j = _
        rw [List.get?_set_ne _ _ (Ne.symm hne)]
        exact runCalls_get?_effect _ _ j od e d c2
          (runCalls_get?_effect _ _ j od e d c2 hA)
      · simp only [hct, het]
        exact runCalls_get?_effect _ _ j od e d c2
          (runCalls_get?_effect _ _ j od e d c2 hA)
    · simp only [hct]
      exact runCalls_get?_effect _ _ j od e d c2 hA

theorem triggerAux_get?_effect_false : ∀ (n i : Nat) (st : HostState) (j : Nat)
    (e : EffectSpec) (d : Option (List Value)) (c2 : Option CleanupSpec),
    st.mem.memory.get? j = some (.effect false e d c2) →
    (triggerAux n i st).1.mem.memory.get? j = some (.effect false e d c2) := by
  intro n
  induction n with
  | zero => intro i st j e d c2 hj; exact hj
  | succ n ih =>
    intro i st j e d c2 hj
    simp only [triggerAux]
    split
    · next eff deps cl heq =>
      have hne : j ≠ i := by
        intro hji
        rw [hji, heq] at hj
        cases hj
      cases hr : (runEffectCell st i eff deps cl).2 with
      | some e' =>
        simp only [hr]
        exact runEffectCell_get?_effect_ne st i eff deps cl j false e d c2 hne hj
      | none =>
        simp only [hr]
        exact ih (i + 1) _ j e d c2
          (runEffectCell_get?_effect_ne st i eff deps cl j false e d c2 hne hj)
    · exact ih (i + 1) st j e d c2 hj

theorem triggerAux_ran_iff : ∀ (n i : Nat) (st st' : HostState) (ran : List Nat),
    triggerAux n i st = (st', ran, none) →
    ∀ j : Nat, j ∈ ran ↔ (i ≤ j ∧ j < i + n ∧ effectOutdatedAt st j = some true) := by
  intro n
  induction n with
  | zero =>
    intro i st st' ran h j
    simp only [triggerAux] at h
    cases h
    simp only [List.not_mem_nil, false_iff]
    rintro ⟨h1, h2, _⟩
    omega
  | succ n ih =>
    intro i st st' ran h j
    simp only [triggerAux] at h
    split at h
    · next eff deps cl heq =>
      cases hr : (runEffectCell st i eff deps cl).2 with
      | some e =>
        rw [hr] at h
        simp at h
      | none =>
        simp only [hr] at h
        rcases htr : triggerAux n (i + 1) (runEffectCell st i eff deps cl).1
          with ⟨stR, ranR, errR⟩
        rw [htr] at h
        obtain ⟨h1, h2, h3⟩ : stR = st' ∧ i :: ranR = ran ∧ errR = none := by
          simpa [Prod.ext_iff] using h
        rw [h3] at htr
        have hiff := ih (i + 1) _ stR ranR htr j
        rw [← h2]
        simp only [List.mem_cons]
        constructor
        · rintro (rfl | hmem)
          · exact ⟨Nat.le_refl j, by omega,
              effectOutdatedAt_of_get?_true st j eff deps cl heq⟩
          · obtain ⟨ha, hb, hc⟩ := hiff.1 hmem
            have hne : j ≠ i := by omega
            rw [runEffectCell_effectOutdatedAt_ne st i eff deps cl j hne] at hc
            exact ⟨by omega, by omega, hc⟩
        · rintro ⟨ha, hb, hc⟩
          rcases eq_or_ne j i with rfl | hne
          · exact Or.inl rfl
          · refine Or.inr (hiff.2 ⟨by omega, by omega, ?_⟩)
            rw [runEffectCell_effectOutdatedAt_ne st i eff deps cl j hne]
            exact hc
    · next hno =>
      have hiff := ih (i + 1) st st' ran h j
      rw [hiff]
      have hkey : effectOutdatedAt st i ≠ some true := by
        unfold effectOutdatedAt
        rcases hgi : st.mem.memory.get? i with _ | cell
        · simp
        · cases cell with
          | state s q => simp
          | memo v d => simp
          | effect od e2 d2 c2 =>
            cases od with
            | false => simp
            | true => exact absurd hgi (by intro hgi'; exact hno e2 d2 c2 hgi')
      constructor
      · rintro ⟨ha, hb, hc⟩
        exact ⟨by omega, by omega, hc⟩
      · rintro ⟨ha, hb, hc⟩
        rcases eq_or_ne j i with rfl | hne
        · exact absurd hc hkey
        · exact ⟨by omega, by omega, hc⟩

theorem triggerEffects_ran_iff (st st' : HostState) (ran : List Nat)
    (h : triggerEffects st = (st', ran, none)) (j : Nat) :
    j ∈ ran ↔ effectOutdatedAt st j = some true := by
  rw [triggerAux_ran_iff st.mem.memory.length 0 st st' ran h j]
  constructor
  · rintro ⟨_, _, hf⟩
    exact hf
  · intro hf
    refine ⟨Nat.zero_le j, ?_, hf⟩
    unfold effectOutdatedAt at hf
    rcases hgj : st.mem.memory.get? j with _ | cell
    · rw [hgj] at hf
      cases hf
    · have hlt : j < st.mem.memory.length := by
        by_contra hge
        rw [List.get?_eq_none.2 (Nat.le_of_not_lt hge)] at hgj
        cases hgj
      omega

theorem triggerEffects_get?_effect_false (st : HostState) (j : Nat)
    (e : EffectSpec) (d : Option (List Value)) (c2 : Option CleanupSpec)
    (hj : st.mem.memory.get? j = some (.effect false e d c2)) :
    (triggerEffects st).1.mem.memory.get? j = some (.effect false e d c2) :=
  triggerAux_get?_effect_false st.mem.memory.length 0 st j e d c2 hj

/-! ### Hard teardown -/

theorem teardownAux_inv : ∀ (n i : Nat) (st : HostState),
    (teardownAux n i st).1.active = st.active ∧
      (teardownAux n i st).1.agentCalls = st.agentCalls := by
  intro n
  induction n with
  | zero => intro i st; exact ⟨rfl, rfl⟩
  | succ n ih =>
    intro i st
    simp only [teardownAux]
    split
    · next od eff deps c heq =>
      rcases hct : c.throws with _ | e
      · simp only [hct]
        refine ⟨?_, ?_⟩
        · rw [(ih (i + 1) _).1, runCalls_active]
        · rw [(ih (i + 1) _).2, runCalls_agentCalls]
      · simp only [hct]
        exact ⟨runCalls_active _ _, runCalls_agentCalls _ _⟩
    · exact ih (i + 1) st

theorem teardownHard_active (st : HostState) :
    (teardownHard st).1.active = st.active := by
  simp only [teardownHard]
  rcases hts : (teardownAux st.mem.memory.length 0 st).2 with _ | e <;>
    simp only [hts] <;>
    exact (teardownAux_inv _ 0 st).1

theorem teardownHard_agentCalls (st : HostState) :
    (teardownHard st).1.agentCalls = st.agentCalls := by
  simp only [teardownHard]
  rcases hts : (teardownAux st.mem.memory.length 0 st).2 with _ | e <;>
    simp only [hts] <;>
    exact (teardownAux_inv _ 0 st).2

theorem teardownHard_ok_mem (st : HostState)
    (h : (teardownHard st).2 = none) : (teardownHard st).1.mem = Memory.empty := by
  simp only [teardownHard] at h ⊢
  rcases hts : (teardownAux st.mem.memory.length 0 st).2 with _ | e
  · simp only [hts]
  · rw [hts] at h
    simp at h

/-! ### The render step -/

theorem afterAgent_active (v : Value) (st2 : HostState) :
    (afterAgent v st2).stOf.active = st2.active := by
  simp only [afterAgent]
  split
  · simp [StepOut.stOf]
  · split
    · simp [StepOut.stOf, triggerEffects_active]
    · split
      · simp [StepOut.stOf, triggerEffects_active]
      · simp [StepOut.stOf, triggerEffects_active]

theorem afterAgent_agentCalls (v : Value) (st2 : HostState) :
    (afterAgent v st2).stOf.agentCalls = st2.agentCalls := by
  simp only [afterAgent]
  split
  · simp [StepOut.stOf]
  · split
    · simp [StepOut.stOf, triggerEffects_agentCalls]
    · split
      · simp [StepOut.stOf, triggerEffects_agentCalls]
      · simp [StepOut.stOf, triggerEffects_agentCalls]

theorem renderStep_active (a : AgentProg) (st : HostState) :
    (renderStep a st).stOf.active = false := by
  simp only [renderStep]
  rcases hra : runAgent a { st with active := true, agentCalls := st.agentCalls + 1 }
    with ⟨st1, r⟩
  simp only [hra]
  cases r with
  | error e => simp [StepOut.stOf]
  | ok v =>
    rw [afterAgent_active]

theorem renderStep_agentCalls (a : AgentProg) (st : HostState) :
    (renderStep a st).stOf.agentCalls = st.agentCalls + 1 := by
  simp only [renderStep]
  rcases hra : runAgent a { st with active := true, agentCalls := st.agentCalls + 1 }
    with ⟨st1, r⟩
  have hc : st1.agentCalls = st.agentCalls + 1 := by
    have h2 := (runAgent_shell a { st with active := true, agentCalls := st.agentCalls + 1 }).2
    rw [hra] at h2
    exact h2
  simp only [hra]
  cases r with
  | error e => simpa [StepOut.stOf] using hc
  | ok v =>
    rw [afterAgent_agentCalls]
    simpa using hc

theorem afterAgent_noState (v : Value) (st2 : HostState)
    (hm : noStateCells st2.mem = true) :
    noStateCells (afterAgent v st2).stOf.mem = true ∧
      ∀ v' st', afterAgent v st2 ≠ .again v' st' := by
  have hm3 : noStateCells st2.mem.resetPointer = true := by
    rwa [noStateCells_resetPointer]
  have happ : st2.mem.resetPointer.applyStateChanges = (st2.mem.resetPointer, false) :=
    applyStateChanges_noState _ hm3
  simp only [afterAgent, happ]
  rcases hte : triggerEffects { st2 with mem := st2.mem.resetPointer }
    with ⟨st5, ran, terr⟩
  have hm5 : noStateCells st5.mem = true := by
    have h5 := triggerEffects_noState { st2 with mem := st2.mem.resetPointer } hm3
    rw [hte] at h5
    exact h5
  simp only [hte]
  cases terr with
  | some e =>
    simp only [StepOut.stOf]
    exact ⟨hm5, by intro v' st' h; cases h⟩
  | none =>
    have happ5 : st5.mem.applyStateChanges = (st5.mem, false) :=
      applyStateChanges_noState _ hm5
    simp only [happ5, StepOut.stOf]
    exact ⟨hm5, by intro v' st' h; cases h⟩

theorem renderStep_noState (a : AgentProg) (st : HostState)
    (hp : a.noState) (hm : noStateCells st.mem = true) :
    noStateCells (renderStep a st).stOf.mem = true ∧
      ∀ v' st', renderStep a st ≠ .again v' st' := by
  simp only [renderStep]
  rcases hra : runAgent a { st with active := true, agentCalls := st.agentCalls + 1 }
    with ⟨st1, r⟩
  have hm1 : noStateCells st1.mem = true := by
    have h1 := runAgent_noState a
      { st with active := true, agentCalls := st.agentCalls + 1 } hp hm
    rw [hra] at h1
    exact h1
  simp only [hra]
  cases r with
  | error e =>
    simp only [StepOut.stOf]
    exact ⟨hm1, by intro v' st' h; cases h⟩
  | ok v => exact afterAgent_noState v { st1 with active := false } hm1

/-! ### Loop outcome bookkeeping -/

theorem addPre_states (pre : List Event) (v : Value) (out : LoopOut) :
    (addPre pre v out).states = out.states := by
  cases out <;> rfl

theorem addPre_logOf_mem (pre : List Event) (v : Value) (out : LoopOut)
    (ev : Event) (h : ev ∈ (addPre pre v out).logOf) :
    ev ∈ pre ∨ ev ∈ out.logOf := by
  cases out with
  | done st log vals => simpa [addPre, LoopOut.logOf] using h
  | thrown e src st log vals => simpa [addPre, LoopOut.logOf] using h
  | fuelOut => simp [addPre, LoopOut.logOf] at h

theorem addPre_done_inv (pre : List Event) (v : Value) (out : LoopOut)
    (st : HostState) (log : List Event) (vals : List Value)
    (h : addPre pre v out = .done st log vals) :
    ∃ log0 vals0, out = .done st log0 vals0 ∧ log = pre ++ log0 ∧
      vals = v :: vals0 := by
  cases out with
  | done st0 log0 vals0 =>
    simp only [addPre] at h
    cases h
    exact ⟨log0, vals0, rfl, rfl, rfl⟩
  | thrown e src st0 log0 vals0 => simp [addPre] at h
  | fuelOut => simp [addPre] at h

theorem addPre_thrown_inv (pre : List Event) (v : Value) (out : LoopOut)
    (e : Err) (src : ThrowSrc) (st : HostState) (log : List Event)
    (vals : List Value) (h : addPre pre v out = .thrown e src st log vals) :
    ∃ log0 vals0, out = .thrown e src st log0 vals0 ∧ log = pre ++ log0 ∧
      vals = v :: vals0 := by
  cases out with
  | done st0 log0 vals0 => simp [addPre] at h
  | thrown e0 src0 st0 log0 vals0 =>
    simp only [addPre] at h
    cases h
    exact ⟨log0, vals0, rfl, rfl, rfl⟩
  | fuelOut => simp [addPre] at h

/-! ### The render procedure -/

theorem renderLoopBody_states_active (l : Listener) (a : AgentProg)
    (recur : Value → HostState → LoopOut) (pre : List Event) (async : Bool)
    (st : HostState)
    (hrec : ∀ v st0, st0.active = false →
      ∀ s' ∈ (recur v st0).states, s'.active = false) :
    ∀ s' ∈ (renderLoopBody l a recur pre async st).states, s'.active = false := by
  intro s' hs'
  simp only [renderLoopBody] at hs'
  rcases hrs : renderStep a st with ⟨v, stS⟩ | ⟨v, stS⟩ | ⟨e, src, stS⟩ <;>
    simp only [hrs] at hs' <;>
    (have hact := renderStep_active a st
     rw [hrs] at hact
     simp only [StepOut.stOf] at hact)
  · rw [addPre_states] at hs'
    exact hrec v stS hact s' hs'
  · cases hl : l (Event.value v async false) <;> simp only [hl, LoopOut.states] at hs' <;>
      (rw [List.mem_singleton] at hs'; rw [hs']; exact hact)
  · simp only [LoopOut.states] at hs'
    rw [List.mem_singleton] at hs'
    rw [hs']
    exact hact

theorem renderLoop_states_active (l : Listener) (a : AgentProg) :
    ∀ (fuel : Nat) (async : Bool) (prev : Option Value) (st : HostState),
      (prev = none ∨ st.active = false) →
      ∀ s' ∈ (renderLoop l a fuel async prev st).states, s'.active = false := by
  intro fuel
  induction fuel with
  | zero =>
    intro async prev st _ s' hs'
    simp [renderLoop, LoopOut.states] at hs'
  | succ n ih =>
    intro async prev st hpre s' hs'
    cases prev with
    | none =>
      simp only [renderLoop] at hs'
      exact renderLoopBody_states_active l a _ [] async st
        (fun v st0 h0 => ih async (some v) st0 (Or.inr h0)) s' hs'
    | some pv =>
      have hact : st.active = false := by
        rcases hpre with h | h
        · cases h
        · exact h
      simp only [renderLoop] at hs'
      cases hl : l (Event.value pv async true) with
      | some e =>
        simp only [hl, LoopOut.states] at hs'
        rw [List.mem_singleton] at hs'
        rw [hs']
        exact hact
      | none =>
        simp only [hl] at hs'
        exact renderLoopBody_states_active l a _ _ async st
          (fun v st0 h0 => ih async (some v) st0 (Or.inr h0)) s' hs'

theorem renderLoopBody_states_agentCalls (l : Listener) (a : AgentProg)
    (recur : Value → HostState → LoopOut) (pre : List Event) (async : Bool)
    (st : HostState)
    (hrec : ∀ v st0, ∀ s' ∈ (recur v st0).states, st0.agentCalls ≤ s'.agentCalls) :
    ∀ s' ∈ (renderLoopBody l a recur pre async st).states,
      st.agentCalls + 1 ≤ s'.agentCalls := by
  intro s' hs'
  simp only [renderLoopBody] at hs'
  rcases hrs : renderStep a st with ⟨v, stS⟩ | ⟨v, stS⟩ | ⟨e, src, stS⟩ <;>
    simp only [hrs] at hs' <;>
    (have hac := renderStep_agentCalls a st
     rw [hrs] at hac
     simp only [StepOut.stOf] at hac)
  · rw [addPre_states] at hs'
    have := hrec v stS s' hs'
    omega
  · cases hl : l (Event.value v async false) <;> simp only [hl, LoopOut.states] at hs' <;>
      (rw [List.mem_singleton] at hs'; rw [hs']; omega)
  · simp only [LoopOut.states] at hs'
    rw [List.mem_singleton] at hs'
    rw [hs']
    omega

theorem renderLoop_states_agentCalls (l : Listener) (a : AgentProg) :
    ∀ (fuel : Nat) (async : Bool) (prev : Option Value) (st : HostState),
      ∀ s' ∈ (renderLoop l a fuel async prev st).states,
        st.agentCalls ≤ s'.agentCalls := by
  intro fuel
  induction fuel with
  | zero =>
    intro async prev st s' hs'
    simp [renderLoop, LoopOut.states] at hs'
  | succ n ih =>
    intro async prev st s' hs'
    cases prev with
    | none =>
      simp only [renderLoop] at hs'
      have := renderLoopBody_states_agentCalls l a _ [] async st
        (fun v st0 => ih async (some v) st0) s' hs'
      omega
    | some pv =>
      simp only [renderLoop] at hs'
      cases hl : l (Event.value pv async true) with
      | some e =>
        simp only [hl, LoopOut.states] at hs'
        rw [List.mem_singleton] at hs'
        rw [hs']
      | none =>
        simp only [hl] at hs'
        have := renderLoopBody_states_agentCalls l a _ _ async st
          (fun v st0 => ih async (some v) st0) s' hs'
        omega

theorem renderLoop_none_agentCalls_lt (l : Listener) (a : AgentProg)
    (fuel : Nat) (async : Bool) (st : HostState) :
    ∀ s' ∈ (renderLoop l a fuel async none st).states,
      st.agentCalls < s'.agentCalls := by
  cases fuel with
  | zero =>
    intro s' hs'
    simp [renderLoop, LoopOut.states] at hs'
  | succ n =>
    intro s' hs'
    simp only [renderLoop] at hs'
    have := renderLoopBody_states_agentCalls l a _ [] async st
      (fun v st0 => renderLoop_states_agentCalls l a n async (some v) st0) s' hs'
    omega

theorem renderLoopBody_log_value (l : Listener) (a : AgentProg)
    (recur : Value → HostState → LoopOut) (pre : List Event) (async : Bool)
    (st : HostState)
    (hpre : ∀ ev ∈ pre, ∃ w b i, ev = Event.value w b i)
    (hrec : ∀ v st0, ∀ ev ∈ (recur v st0).logOf, ∃ w b i, ev = Event.value w b i) :
    ∀ ev ∈ (renderLoopBody l a recur pre async st).logOf,
      ∃ w b i, ev = Event.value w b i := by
  intro ev hev
  simp only [renderLoopBody] at hev
  rcases hrs : renderStep a st with ⟨v, stS⟩ | ⟨v, stS⟩ | ⟨e, src, stS⟩ <;>
    simp only [hrs] at hev
  · rcases addPre_logOf_mem pre v _ ev hev with h | h
    · exact hpre ev h
    · exact hrec v stS ev h
  · cases hl : l (Event.value v async false) <;>
      simp only [hl, LoopOut.logOf] at hev <;>
      (rcases List.mem_append.1 hev with h | h
       · exact hpre ev h
       · rw [List.mem_singleton] at h
         exact ⟨v, async, false, h⟩)
  · simp only [LoopOut.logOf] at hev
    exact hpre ev hev

theorem renderLoop_log_value (l : Listener) (a : AgentProg) :
    ∀ (fuel : Nat) (async : Bool) (prev : Option Value) (st : HostState),
      ∀ ev ∈ (renderLoop l a fuel async prev st).logOf,
        ∃ w b i, ev = Event.value w b i := by
  intro fuel
  induction fuel with
  | zero =>
    intro async prev st ev hev
    simp [renderLoop, LoopOut.logOf] at hev
  | succ n ih =>
    intro async prev st ev hev
    cases prev with
    | none =>
      simp only [renderLoop] at hev
      exact renderLoopBody_log_value l a _ [] async st (by simp)
        (fun v st0 => ih async (some v) st0) ev hev
    | some pv =>
      simp only [renderLoop] at hev
      cases hl : l (Event.value pv async true) with
      | some e =>
        simp only [hl, LoopOut.logOf] at hev
        rw [List.mem_singleton] at hev
        exact ⟨pv, async, true, hev⟩
      | none =>
        simp only [hl] at hev
        refine renderLoopBody_log_value l a _ _ async st ?_
          (fun v st0 => ih async (some v) st0) ev hev
        intro ev' hev'
        rw [List.mem_singleton] at hev'
        exact ⟨pv, async, true, hev'⟩

theorem renderLoopBody_log_async (l : Listener) (a : AgentProg)
    (recur : Value → HostState → LoopOut) (pre : List Event) (async : Bool)
    (st : HostState)
    (hpre : ∀ v b i, Event.value v b i ∈ pre → b = async)
    (hrec : ∀ w st0, ∀ v b i, Event.value v b i ∈ (recur w st0).logOf → b = async) :
    ∀ v b i, Event.value v b i ∈ (renderLoopBody l a recur pre async st).logOf →
      b = async := by
  intro v b i hev
  simp only [renderLoopBody] at hev
  rcases hrs : renderStep a st with ⟨w, stS⟩ | ⟨w, stS⟩ | ⟨e, src, stS⟩ <;>
    simp only [hrs] at hev
  · rcases addPre_logOf_mem pre w _ _ hev with h | h
    · exact hpre v b i h
    · exact hrec w stS v b i h
  · cases hl : l (Event.value w async false) <;>
      simp only [hl, LoopOut.logOf] at hev <;>
      (rcases List.mem_append.1 hev with h | h
       · exact hpre v b i h
       · rw [List.mem_singleton] at h
         cases h
         rfl)
  · simp only [LoopOut.logOf] at hev
    exact hpre v b i hev

theorem renderLoop_log_async (l : Listener) (a : AgentProg) :
    ∀ (fuel : Nat) (async : Bool) (prev : Option Value) (st : HostState),
      ∀ v b i, Event.value v b i ∈ (renderLoop l a fuel async prev st).logOf →
        b = async := by
  intro fuel
  induction fuel with
  | zero =>
    intro async prev st v b i hev
    simp [renderLoop, LoopOut.logOf] at hev
  | succ n ih =>
    intro async prev st v b i hev
    cases prev with
    | none =>
      simp only [renderLoop] at hev
      exact renderLoopBody_log_async l a _ [] async st (by simp)
        (fun w st0 => ih async (some w) st0) v b i hev
    | some pv =>
      simp only [renderLoop] at hev
      cases hl : l (Event.value pv async true) with
      | some e =>
        simp only [hl, LoopOut.logOf] at hev
        rw [List.mem_singleton] at hev
        cases hev
        rfl
      | none =>
        simp only [hl] at hev
        refine renderLoopBody_log_async l a _ _ async st ?_
          (fun w st0 => ih async (some w) st0) v b i hev
        intro v' b' i' hev'
        rw [List.mem_singleton] at hev'
        cases hev'
        rfl

theorem renderLoopBody_done_shape (l : Listener) (a : AgentProg)
    (recur : Value → HostState → LoopOut) (pre : List Event) (async : Bool)
    (st st' : HostState) (log : List Event) (vals : List Value)
    (hrec : ∀ v st0 stR logR valsR, recur v st0 = .done stR logR valsR →
      ∃ inters last, valsR = inters ++ [last] ∧
        logR = [Event.value v async true] ++
          inters.map (fun w => Event.value w async true) ++
          [Event.value last async false])
    (h : renderLoopBody l a recur pre async st = .done st' log vals) :
    ∃ inters last, vals = inters ++ [last] ∧
      log = pre ++ inters.map (fun w => Event.value w async true) ++
        [Event.value last async false] := by
  simp only [renderLoopBody] at h
  rcases hrs : renderStep a st with ⟨v, stS⟩ | ⟨v, stS⟩ | ⟨e, src, stS⟩ <;>
    simp only [hrs] at h
  · obtain ⟨log0, vals0, hout, hlog, hvals⟩ := addPre_done_inv pre v _ st' log vals h
    obtain ⟨inters0, last0, hv0, hl0⟩ := hrec v stS st' log0 vals0 hout
    refine ⟨v :: inters0, last0, by simp [hvals, hv0], ?_⟩
    simp [hlog, hl0]
  · cases hl : l (Event.value v async false) with
    | none =>
      simp only [hl] at h
      cases h
      exact ⟨[], v, rfl, by simp⟩
    | some e =>
      simp only [hl] at h
      cases h
  · cases h

theorem renderLoop_done_shape (l : Listener) (a : AgentProg) :
    ∀ (fuel : Nat) (async : Bool) (prev : Option Value) (st st' : HostState)
      (log : List Event) (vals : List Value),
      renderLoop l a fuel async prev st = .done st' log vals →
      ∃ inters last, vals = inters ++ [last] ∧
        log = prevEmit async prev ++
          inters.map (fun w => Event.value w async true) ++
          [Event.value last async false] := by
  intro fuel
  induction fuel with
  | zero =>
    intro async prev st st' log vals h
    cases h
  | succ n ih =>
    intro async prev st st' log vals h
    cases prev with
    | none =>
      simp only [renderLoop] at h
      have := renderLoopBody_done_shape l a _ [] async st st' log vals
        (fun v st0 stR logR valsR hr => by
          simpa [prevEmit] using ih async (some v) st0 stR logR valsR hr) h
      simpa [prevEmit] using this
    | some pv =>
      simp only [renderLoop] at h
      cases hl : l (Event.value pv async true) with
      | some e =>
        simp only [hl] at h
        cases h
      | none =>
        simp only [hl] at h
        have := renderLoopBody_done_shape l a _ _ async st st' log vals
          (fun v st0 stR logR valsR hr => by
            simpa [prevEmit] using ih async (some v) st0 stR logR valsR hr) h
        simpa [prevEmit] using this

theorem renderLoopBody_thrown_shape (l : Listener) (a : AgentProg)
    (recur : Value → HostState → LoopOut) (pre : List Event) (async : Bool)
    (st st' : HostState) (e : Err) (src : ThrowSrc) (log : List Event)
    (vals : List Value)
    (hrec : ∀ v st0 eR srcR stR logR valsR,
      recur v st0 = .thrown eR srcR stR logR valsR → srcR ≠ .listener →
      logR = [Event.value v async true] ++
        valsR.map (fun w => Event.value w async true))
    (h : renderLoopBody l a recur pre async st = .thrown e src st' log vals)
    (hsrc : src ≠ .listener) :
    log = pre ++ vals.map (fun w => Event.value w async true) := by
  simp only [renderLoopBody] at h
  rcases hrs : renderStep a st with ⟨v, stS⟩ | ⟨v, stS⟩ | ⟨e', src', stS⟩ <;>
    simp only [hrs] at h
  · obtain ⟨log0, vals0, hout, hlog, hvals⟩ := addPre_thrown_inv pre v _ e src st' log vals h
    have hl0 := hrec v stS e src st' log0 vals0 hout hsrc
    simp [hlog, hl0, hvals]
  · cases hl : l (Event.value v async false) with
    | none =>
      simp only [hl] at h
      cases h
    | some e2 =>
      simp only [hl] at h
      cases h
      exact absurd rfl hsrc
  · cases h
    simp

theorem renderLoop_thrown_shape (l : Listener) (a : AgentProg) :
    ∀ (fuel : Nat) (async : Bool) (prev : Option Value) (st st' : HostState)
      (e : Err) (src : ThrowSrc) (log : List Event) (vals : List Value),
      renderLoop l a fuel async prev st = .thrown e src st' log vals →
      src ≠ .listener →
      log = prevEmit async prev ++ vals.map (fun w => Event.value w async true) := by
  intro fuel
  induction fuel with
  | zero =>
    intro async prev st st' e src log vals h _
    cases h
  | succ n ih =>
    intro async prev st st' e src log vals h hsrc
    cases prev with
    | none =>
      simp only [renderLoop] at h
      have := renderLoopBody_thrown_shape l a _ [] async st st' e src log vals
        (fun v st0 eR srcR stR logR valsR hr hs => by
          simpa [prevEmit] using ih async (some v) st0 stR eR srcR logR valsR hr hs) h hsrc
      simpa [prevEmit] using this
    | some pv =>
      simp only [renderLoop] at h
      cases hl : l (Event.value pv async true) with
      | some e2 =>
        simp only [hl] at h
        cases h
        exact absurd rfl hsrc
      | none =>
        simp only [hl] at h
        have := renderLoopBody_thrown_shape l a _ _ async st st' e src log vals
          (fun v st0 eR srcR stR logR valsR hr hs => by
            simpa [prevEmit] using ih async (some v) st0 stR eR srcR logR valsR hr hs) h hsrc
        simpa [prevEmit] using this

theorem renderLoopBody_noState (l : Listener) (a : AgentProg)
    (recur : Value → HostState → LoopOut) (pre : List Event) (async : Bool)
    (st : HostState) (hp : a.noState) (hm : noStateCells st.mem = true)
    (hl : ∀ ev, l ev = none) :
    (∃ v st', renderLoopBody l a recur pre async st =
        .done st' (pre ++ [Event.value v async false]) [v] ∧
        noStateCells st'.mem = true) ∨
    (∃ e src st', renderLoopBody l a recur pre async st =
        .thrown e src st' pre []) := by
  obtain ⟨hmS, hnot⟩ := renderStep_noState a st hp hm
  simp only [renderLoopBody]
  rcases hrs : renderStep a st with ⟨v, stS⟩ | ⟨v, stS⟩ | ⟨e, src, stS⟩
  · exact absurd hrs (hnot v stS)
  · rw [hrs] at hmS
    simp only [StepOut.stOf] at hmS
    simp only [hrs, hl]
    exact Or.inl ⟨v, stS, rfl, hmS⟩
  · simp only [hrs]
    exact Or.inr ⟨e, src, stS, rfl⟩

theorem renderLoop_noState_spec (l : Listener) (a : AgentProg) (n : Nat)
    (async : Bool) (st : HostState) (hp : a.noState)
    (hm : noStateCells st.mem = true) (hl : ∀ ev, l ev = none) :
    (∃ v st', renderLoop l a (n + 1) async none st =
        .done st' [Event.value v async false] [v] ∧
        noStateCells st'.mem = true) ∨
    (∃ e src st', renderLoop l a (n + 1) async none st =
        .thrown e src st' [] []) := by
  simp only [renderLoop]
  have := renderLoopBody_noState l a
    (fun v st' => renderLoop l a n async (some v) st') [] async st hp hm hl
  simpa using this

/-! ### Entry-point helpers -/

theorem renderAsync_noChange (fuel : Nat) (l : Listener) (a : Value → AgentProg)
    (args : Value) (st : HostState) (h : st.mem.applyStateChanges.2 = false) :
    renderAsync fuel l a args st =
      some ⟨{ st with mem := st.mem.applyStateChanges.1 }, [], none⟩ := by
  simp [renderAsync, h]

theorem runCalls_same_cell (idx : Nat) : ∀ (cs : List StateChange)
    (st : HostState) (s : Value) (q : List StateChange),
    st.mem.memory.get? idx = some (.state s q) →
    (runCalls st (cs.map (fun c => (idx, c)))).mem.memory.get? idx =
        some (.state s (q ++ cs)) ∧
      (runCalls st (cs.map (fun c => (idx, c)))).scheduled =
        (if st.active then st.scheduled else st.scheduled + cs.length) ∧
      (runCalls st (cs.map (fun c => (idx, c)))).active = st.active := by
  intro cs
  induction cs with
  | nil =>
    intro st s q h
    refine ⟨by simpa using h, ?_, rfl⟩
    cases hact : st.active <;> simp [runCalls]
  | cons c rest ih =>
    intro st s q h
    have hlt : idx < st.mem.memory.length := by
      by_contra hge
      rw [List.get?_eq_none.2 (Nat.le_of_not_lt hge)] at h
      cases h
    have hset := setState_state_cell st idx c s q h
    have hget : (setState st idx c).mem.memory.get? idx =
        some (.state s (q ++ [c])) := by
      rw [hset]
      show (st.mem.memory.set idx _).get? idx = _
      rw [List.get?_set_eq_of_lt _ hlt]
    simp only [List.map_cons, runCalls_cons]
    obtain ⟨h1, h2, h3⟩ := ih (setState st idx c) s (q ++ [c]) hget
    refine ⟨by simpa [List.append_assoc] using h1, ?_, ?_⟩
    · rw [h2, hset]
      cases hact : st.active <;> simp <;> omega
    · rw [h3, setState_active]

/-! ### Claim theorems -/

/-- C6: if the dependency list supplied at a memo slot is equal (per the
Dependency Comparator) to the stored one, `useMemo` returns the identical
previously stored value without invoking the producer and leaves the
memory untouched apart from the advanced cursor; the producer is invoked
exactly on the first call at the slot and on calls whose dependency list
differs. -/
theorem useMemo_stability (create : Unit → Value) (deps : List Value)
    (st : HostState)
    (hwf : st.mem.read = none ∨ ∃ v0 d0, st.mem.read = some (.memo v0 d0)) :
    ∃ v invoked st', useMemo create deps st = .ok (v, invoked, st') ∧
      (∀ v0 d0, st.mem.read = some (.memo v0 d0) → d0 = deps →
        v = v0 ∧ invoked = false ∧ st'.mem.memory = st.mem.memory ∧
          st'.mem.pointer = st.mem.pointer + 1) ∧
      (invoked = true ↔
        st.mem.read = none ∨
          ∃ v0 d0, st.mem.read = some (.memo v0 d0) ∧ d0 ≠ deps) ∧
      (invoked = true → v = create ()) := by
  rcases hread : st.mem.read with _ | cell
  · refine ⟨create (), true,
      { st with mem := (st.mem.write (.memo (create ()) deps)).movePointer },
      ?_, ?_, ?_, fun _ => rfl⟩
    · unfold useMemo
      rw [hread]
    · intro v0 d0 hc
      cases hc
    · simp
  · rcases cell with _ | _ | ⟨v0, d0⟩
    · rcases hwf with hwf | ⟨v1, d1, hwf⟩ <;> rw [hread] at hwf <;> cases hwf
    · rcases hwf with hwf | ⟨v1, d1, hwf⟩ <;> rw [hread] at hwf <;> cases hwf
    · rcases hcomp : areDependenciesEqual (some d0) (some deps) with _ | _
      · have hne : d0 ≠ deps := by
          intro hd
          have ht := (areDependenciesEqual_some_iff d0 deps).2 hd
          rw [hcomp] at ht
          cases ht
        refine ⟨create (), true,
          { st with mem := ⟨st.mem.memory.set st.mem.pointer (.memo (create ()) deps),
            st.mem.pointer + 1⟩ }, ?_, ?_, ?_, fun _ => rfl⟩
        · unfold useMemo
          simp only [hread, hcomp]
          simp
        · intro v1 d1 hc heq
          cases hc
          exact absurd heq hne
        · simp
          exact ⟨v0, d0, ⟨rfl, rfl⟩, hne⟩
      · have hd : d0 = deps := (areDependenciesEqual_some_iff d0 deps).1 hcomp
        refine ⟨v0, false, { st with mem := st.mem.movePointer },
          ?_, ?_, ?_, ?_⟩
        · unfold useMemo
          simp only [hread, hcomp]
          simp
        · intro v1 d1 hc _
          cases hc
          exact ⟨rfl, rfl, rfl, rfl⟩
        · subst hd
          simp
        · intro hfalse
          cases hfalse

/-- C6 witness: a memo slot storing value 7 with dependencies `[1, 2]`,
queried with the same dependencies. -/
theorem useMemo_stability_witness :
    ((⟨⟨[.memo 7 [1, 2]], 0⟩, false, 0, 0⟩ : HostState).mem.read = none ∨
      ∃ v0 d0, (⟨⟨[.memo 7 [1, 2]], 0⟩, false, 0, 0⟩ : HostState).mem.read =
        some (.memo v0 d0)) ∧
    (∃ v invoked st', useMemo (fun _ => 9) [1, 2]
        (⟨⟨[.memo 7 [1, 2]], 0⟩, false, 0, 0⟩ : HostState) = .ok (v, invoked, st') ∧
      (∀ v0 d0, (⟨⟨[.memo 7 [1, 2]], 0⟩, false, 0, 0⟩ : HostState).mem.read =
            some (.memo v0 d0) → d0 = [1, 2] →
        v = v0 ∧ invoked = false ∧
          st'.mem.memory = (⟨⟨[.memo 7 [1, 2]], 0⟩, false, 0, 0⟩ : HostState).mem.memory ∧
          st'.mem.pointer = (⟨⟨[.memo 7 [1, 2]], 0⟩, false, 0, 0⟩ : HostState).mem.pointer + 1) ∧
      ((invoked = true ↔
        (⟨⟨[.memo 7 [1, 2]], 0⟩, false, 0, 0⟩ : HostState).mem.read = none ∨
          ∃ v0 d0, (⟨⟨[.memo 7 [1, 2]], 0⟩, false, 0, 0⟩ : HostState).mem.read =
            some (.memo v0 d0) ∧ d0 ≠ [1, 2])) ∧
      (invoked = true → v = (fun _ : Unit => (9 : Value)) ())) :=
  ⟨Or.inr ⟨7, [1, 2], rfl⟩,
   useMemo_stability (fun _ => 9) [1, 2] _ (Or.inr ⟨7, [1, 2], rfl⟩)⟩

/-- C5: at an effect slot holding a non-outdated cell, `useEffect`
marks the cell outdated (and `triggerEffects` then re-runs it) exactly
when the supplied dependency list is undefined, no previous list existed,
or the lists differ; otherwise the stored cell is left untouched and the
effect is not run by `triggerEffects`. -/
theorem useEffect_rerun_law (eff eff0 : EffectSpec) (deps deps0 : Option (List Value))
    (cl0 : Option CleanupSpec) (st : HostState)
    (h : st.mem.read = some (.effect false eff0 deps0 cl0)) :
    ∃ st', useEffect eff deps st = .ok st' ∧
      ((deps = none ∨ deps0 = none ∨
          ∃ a b, deps0 = some a ∧ deps = some b ∧ a ≠ b) →
        effectOutdatedAt st' st.mem.pointer = some true ∧
        ∀ stT ran, triggerEffects st' = (stT, ran, none) →
          st.mem.pointer ∈ ran) ∧
      (¬(deps = none ∨ deps0 = none ∨
          ∃ a b, deps0 = some a ∧ deps = some b ∧ a ≠ b) →
        st' = { st with mem := st.mem.movePointer } ∧
        (∀ stT ran, triggerEffects st' = (stT, ran, none) →
          st.mem.pointer ∉ ran) ∧
        (triggerEffects st').1.mem.memory.get? st.mem.pointer =
          some (.effect false eff0 deps0 cl0)) := by
  have hlt : st.mem.pointer < st.mem.memory.length := by
    by_contra hge
    have hnone : st.mem.read = none := List.get?_eq_none.2 (Nat.le_of_not_lt hge)
    rw [hnone] at h
    cases h
  rcases hcomp : areDependenciesEqual deps0 deps with _ | _
  · have hrerun : deps = none ∨ deps0 = none ∨
        ∃ a b, deps0 = some a ∧ deps = some b ∧ a ≠ b := by
      have hf := (areDependenciesEqual_eq_false_iff deps0 deps).1 hcomp
      tauto
    refine ⟨{ st with mem :=
      ⟨st.mem.memory.set st.mem.pointer (.effect true eff deps cl0),
       st.mem.pointer + 1⟩ }, ?_, ?_, fun hno => absurd hrerun hno⟩
    · unfold useEffect
      simp only [h, hcomp]
      simp
    · intro _
      have hflag : effectOutdatedAt
          ({ st with mem := ⟨st.mem.memory.set st.mem.pointer (.effect true eff deps cl0),
             st.mem.pointer + 1⟩ } : HostState) st.mem.pointer = some true := by
        unfold effectOutdatedAt
        show (match (st.mem.memory.set st.mem.pointer
          (MemoryCell.effect true eff deps cl0)).get? st.mem.pointer with
          | some (.effect od _ _ _) => some od
          | _ => none) = some true
        rw [List.get?_set_eq_of_lt _ hlt]
      refine ⟨hflag, fun stT ran htr => ?_⟩
      exact (triggerEffects_ran_iff _ stT ran htr st.mem.pointer).2 hflag
  · have heqd : ¬(deps = none ∨ deps0 = none ∨
        ∃ a b, deps0 = some a ∧ deps = some b ∧ a ≠ b) := by
      intro hcon
      have hf : areDependenciesEqual deps0 deps = false :=
        (areDependenciesEqual_eq_false_iff deps0 deps).2 (by tauto)
      rw [hcomp] at hf
      cases hf
    refine ⟨{ st with mem := st.mem.movePointer },
      ?_, fun hr => absurd hr heqd, fun _ => ⟨rfl, ?_, ?_⟩⟩
    · unfold useEffect
      simp only [h, hcomp]
      simp
    · intro stT ran htr hmem
      have hflag : effectOutdatedAt
          ({ st with mem := st.mem.movePointer } : HostState) st.mem.pointer =
          some false := by
        unfold effectOutdatedAt
        show (match st.mem.memory.get? st.mem.pointer with
          | some (.effect od _ _ _) => some od
          | _ => none) = some false
        rw [show st.mem.memory.get? st.mem.pointer =
          some (.effect false eff0 deps0 cl0) from h]
      have htrue := (triggerEffects_ran_iff _ stT ran htr st.mem.pointer).1 hmem
      rw [hflag] at htrue
      cases htrue
    · exact triggerEffects_get?_effect_false _ _ eff0 deps0 cl0 h

/-- C5 witness: an effect slot with stored dependencies `[1]` offered
new dependencies `[2]`. -/
theorem useEffect_rerun_law_witness :
    ((⟨⟨[.effect false ⟨[], none, none⟩ (some [1]) none], 0⟩, false, 0, 0⟩ :
        HostState).mem.read =
      some (.effect false ⟨[], none, none⟩ (some [1]) none)) ∧
    (∃ st', useEffect ⟨[], none, none⟩ (some [2])
        (⟨⟨[.effect false ⟨[], none, none⟩ (some [1]) none], 0⟩, false, 0, 0⟩ :
          HostState) = .ok st' ∧
      ((some [2] = none ∨ (some [1] : Option (List Value)) = none ∨
          ∃ a b, (some [1] : Option (List Value)) = some a ∧
            (some [2] : Option (List Value)) = some b ∧ a ≠ b) →
        effectOutdatedAt st'
          (⟨⟨[.effect false ⟨[], none, none⟩ (some [1]) none], 0⟩, false, 0, 0⟩ :
            HostState).mem.pointer = some true ∧
        ∀ stT ran, triggerEffects st' = (stT, ran, none) →
          (⟨⟨[.effect false ⟨[], none, none⟩ (some [1]) none], 0⟩, false, 0, 0⟩ :
            HostState).mem.pointer ∈ ran) ∧
      (¬(some [2] = none ∨ (some [1] : Option (List Value)) = none ∨
          ∃ a b, (some [1] : Option (List Value)) = some a ∧
            (some [2] : Option (List Value)) = some b ∧ a ≠ b) →
        st' = { (⟨⟨[.effect false ⟨[], none, none⟩ (some [1]) none], 0⟩, false, 0, 0⟩ :
            HostState) with
          mem := (⟨⟨[.effect false ⟨[], none, none⟩ (some [1]) none], 0⟩, false, 0, 0⟩ :
            HostState).mem.movePointer } ∧
        (∀ stT ran, triggerEffects st' = (stT, ran, none) →
          (⟨⟨[.effect false ⟨[], none, none⟩ (some [1]) none], 0⟩, false, 0, 0⟩ :
            HostState).mem.pointer ∉ ran) ∧
        (triggerEffects st').1.mem.memory.get?
            (⟨⟨[.effect false ⟨[], none, none⟩ (some [1]) none], 0⟩, false, 0, 0⟩ :
              HostState).mem.pointer =
          some (.effect false ⟨[], none, none⟩ (some [1]) none))) :=
  ⟨rfl, useEffect_rerun_law ⟨[], none, none⟩ ⟨[], none, none⟩ (some [2]) (some [1])
    none _ rfl⟩

/-- C3 (amended): each setter invocation appends the given change to its
cell's pending queue, and it schedules an asynchronous re-render
microtask if and only if the owning Host is not the currently active Host
(i.e. not mid agent invocation; a setter invoked from an effect during
the render procedure also schedules one); multiple setter calls before
that re-render land in the same queue and are drained together by one
`applyStateChanges`, after which a further `applyStateChanges` reports no
change, and a re-render microtask that finds no change emits no event and
runs no render. -/
theorem setState_schedule_spec (st : HostState) (idx : Nat) (c : StateChange)
    (s : Value) (q : List StateChange)
    (h : st.mem.memory.get? idx = some (.state s q)) :
    (setState st idx c).mem.memory.get? idx = some (.state s (q ++ [c])) ∧
    ((setState st idx c).scheduled = st.scheduled + 1 ↔ st.active = false) ∧
    ((setState st idx c).scheduled = st.scheduled ↔ st.active = true) ∧
    (∀ cs : List StateChange, st.active = false →
      (runCalls st (cs.map (fun c' => (idx, c')))).mem.memory.get? idx =
          some (.state s (q ++ cs)) ∧
        (runCalls st (cs.map (fun c' => (idx, c')))).scheduled =
          st.scheduled + cs.length) ∧
    (∀ m : Memory, (m.applyStateChanges.1).applyStateChanges.2 = false) ∧
    (∀ (fuel : Nat) (l : Listener) (a : Value → AgentProg) (args : Value)
      (st0 : HostState), st0.mem.applyStateChanges.2 = false →
      renderAsync fuel l a args st0 =
        some ⟨{ st0 with mem := st0.mem.applyStateChanges.1 }, [], none⟩) := by
  have hlt : idx < st.mem.memory.length := by
    by_contra hge
    rw [List.get?_eq_none.2 (Nat.le_of_not_lt hge)] at h
    cases h
  have hset := setState_state_cell st idx c s q h
  refine ⟨?_, ?_, ?_, ?_, ?_, ?_⟩
  · rw [hset]
    show (st.mem.memory.set idx _).get? idx = _
    rw [List.get?_set_eq_of_lt _ hlt]
  · rw [hset]
    cases hact : st.active <;> simp
  · rw [hset]
    cases hact : st.active <;> simp
  · intro cs hact
    obtain ⟨h1, h2, _⟩ := runCalls_same_cell idx cs st s q h
    refine ⟨h1, ?_⟩
    rw [h2, hact]
    simp
  · intro m
    rw [applyStateChanges_drain]
  · intro fuel l a args st0 h0
    exact renderAsync_noChange fuel l a args st0 h0

/-- C3 counterexample: rendering `effectSetsStateAgent` from a fresh
Host, the only setter invocation happens inside an effect — during the
render procedure, so with the owning Host mid-render — yet a re-render
microtask is scheduled: `scheduled` ends at 1, not 0. -/
theorem setState_effect_phase_schedules :
    (render 10 noThrowListener effectSetsStateAgent 0 HostState.init).map
        (fun o => (o.st.scheduled, o.log)) =
      some (1, [Event.value 5 false true, Event.value 6 false false]) ∧
    (1 : Nat) ≠ 0 :=
  ⟨rfl, by decide⟩

/-- C3 witness: a single state cell holding 1 with an empty queue, from
an inactive Host. -/
theorem setState_schedule_spec_witness :
    ((⟨⟨[.state 1 []], 0⟩, false, 0, 0⟩ : HostState).mem.memory.get? 0 =
      some (.state 1 [])) ∧
    ((setState ⟨⟨[.state 1 []], 0⟩, false, 0, 0⟩ 0 (.replace 5)).mem.memory.get? 0 =
        some (.state 1 ([] ++ [.replace 5])) ∧
      ((setState ⟨⟨[.state 1 []], 0⟩, false, 0, 0⟩ 0 (.replace 5)).scheduled = 0 + 1 ↔
        (⟨⟨[.state 1 []], 0⟩, false, 0, 0⟩ : HostState).active = false) ∧
      ((setState ⟨⟨[.state 1 []], 0⟩, false, 0, 0⟩ 0 (.replace 5)).scheduled = 0 ↔
        (⟨⟨[.state 1 []], 0⟩, false, 0, 0⟩ : HostState).active = true) ∧
      (∀ cs : List StateChange,
        (⟨⟨[.state 1 []], 0⟩, false, 0, 0⟩ : HostState).active = false →
        (runCalls ⟨⟨[.state 1 []], 0⟩, false, 0, 0⟩
            (cs.map (fun c' => (0, c')))).mem.memory.get? 0 =
            some (.state 1 ([] ++ cs)) ∧
          (runCalls ⟨⟨[.state 1 []], 0⟩, false, 0, 0⟩
            (cs.map (fun c' => (0, c')))).scheduled = 0 + cs.length) ∧
      (∀ m : Memory, (m.applyStateChanges.1).applyStateChanges.2 = false) ∧
      (∀ (fuel : Nat) (l : Listener) (a : Value → AgentProg) (args : Value)
        (st0 : HostState), st0.mem.applyStateChanges.2 = false →
        renderAsync fuel l a args st0 =
          some ⟨{ st0 with mem := st0.mem.applyStateChanges.1 }, [], none⟩)) :=
  ⟨rfl, setState_schedule_spec ⟨⟨[.state 1 []], 0⟩, false, 0, 0⟩ 0 (.replace 5) 1 [] rfl⟩

/-- C4: a scheduled re-render microtask first applies pending state
changes; when nothing changed it emits no event of any kind and the
agent is not invoked; otherwise the full render procedure runs (the
agent-invocation count strictly rises) and every value event emitted
carries the async flag true. -/
theorem renderAsync_spec (fuel : Nat) (l : Listener) (a : Value → AgentProg)
    (args : Value) (st : HostState) :
    (st.mem.applyStateChanges.2 = false →
      renderAsync fuel l a args st =
        some ⟨{ st with mem := st.mem.applyStateChanges.1 }, [], none⟩) ∧
    (∀ out, renderAsync fuel l a args st = some out →
      ∀ v b i, Event.value v b i ∈ out.log → b = true) ∧
    (st.mem.applyStateChanges.2 = true →
      ∀ out, renderAsync fuel l a args st = some out →
        st.agentCalls < out.st.agentCalls) := by
  refine ⟨renderAsync_noChange fuel l a args st, ?_, ?_⟩
  · intro out hout v b i hev
    simp only [renderAsync] at hout
    rcases hac : st.mem.applyStateChanges.2 with _ | _ <;> simp only [hac] at hout
    · cases hout
      simp at hev
    · rcases hlo : renderLoop l (a args) fuel true none
          { st with mem := st.mem.applyStateChanges.1 }
        with ⟨st', log, vals⟩ | ⟨e, src, st', log, vals⟩ | _ <;>
        simp only [hlo] at hout
      · cases hout
        refine renderLoop_log_async l (a args) fuel true none
          { st with mem := st.mem.applyStateChanges.1 } v b i ?_
        rw [hlo]
        simpa [LoopOut.logOf] using hev
      · rcases htd : teardownHard st' with ⟨st2, terr⟩
        simp only [htd] at hout
        cases terr with
        | some e2 =>
          cases hout
          refine renderLoop_log_async l (a args) fuel true none
            { st with mem := st.mem.applyStateChanges.1 } v b i ?_
          rw [hlo]
          simpa [LoopOut.logOf] using hev
        | none =>
          cases hout
          simp only [RenderOut.log] at hev
          rcases List.mem_append.1 hev with hmem | hmem
          · refine renderLoop_log_async l (a args) fuel true none
              { st with mem := st.mem.applyStateChanges.1 } v b i ?_
            rw [hlo]
            simpa [LoopOut.logOf] using hmem
          · rw [List.mem_singleton] at hmem
            cases hmem
      · cases hout
  · intro hch out hout
    simp only [renderAsync] at hout
    simp only [hch] at hout
    rcases hlo : renderLoop l (a args) fuel true none
        { st with mem := st.mem.applyStateChanges.1 }
      with ⟨st', log, vals⟩ | ⟨e, src, st', log, vals⟩ | _ <;>
      simp only [hlo] at hout
    · cases hout
      have hlt := renderLoop_none_agentCalls_lt l (a args) fuel true
        { st with mem := st.mem.applyStateChanges.1 } st'
        (by rw [hlo]; simp [LoopOut.states])
      simpa using hlt
    · rcases htd : teardownHard st' with ⟨st2, terr⟩
      have hlt := renderLoop_none_agentCalls_lt l (a args) fuel true
        { st with mem := st.mem.applyStateChanges.1 } st'
        (by rw [hlo]; simp [LoopOut.states])
      have hlt2 : st.agentCalls < st'.agentCalls := by simpa using hlt
      have h2 : st2.agentCalls = st'.agentCalls := by
        have hta := teardownHard_agentCalls st'
        rw [htd] at hta
        exact hta
      simp only [htd] at hout
      cases terr with
      | some e2 =>
        cases hout
        simp only [RenderOut.st]
        omega
      | none =>
        cases hout
        simp only [RenderOut.st]
        omega
    · cases hout

/-- C4 witness: a host with one state cell whose queue is empty (the
no-change branch applies), and the same shape with a pending change
exercising the change branch. -/
theorem renderAsync_spec_witness :
    ((⟨⟨[.state 2 []], 0⟩, false, 0, 0⟩ : HostState).mem.applyStateChanges.2 = false) ∧
    (renderAsync 5 noThrowListener statefulAgent 0 ⟨⟨[.state 2 []], 0⟩, false, 0, 0⟩ =
      some ⟨{ (⟨⟨[.state 2 []], 0⟩, false, 0, 0⟩ : HostState) with
        mem := (⟨⟨[.state 2 []], 0⟩, false, 0, 0⟩ : HostState).mem.applyStateChanges.1 },
        [], none⟩) :=
  ⟨rfl, (renderAsync_spec 5 noThrowListener statefulAgent 0
    ⟨⟨[.state 2 []], 0⟩, false, 0, 0⟩).1 rfl⟩

/-- C8: the process-wide active-Host reference is set for the span of the
single agent invocation (`runAgent` keeps it set when entered set) and is
never still set when control returns to caller code: after `render` and
after a microtask's `renderAsync`, on every exit path including throwing
agents, the reference is cleared. -/
theorem activeHost_cleared (l : Listener) (a : Value → AgentProg) :
    (∀ (p : AgentProg) (st : HostState),
      (runAgent p { st with active := true }).1.active = true) ∧
    (∀ fuel args st out, render fuel l a args st = some out →
      out.st.active = false) ∧
    (∀ fuel args st out, st.active = false →
      renderAsync fuel l a args st = some out → out.st.active = false) := by
  refine ⟨?_, ?_, ?_⟩
  · intro p st
    exact (runAgent_shell p { st with active := true }).1
  · intro fuel args st out hout
    simp only [render] at hout
    rcases hlo : renderLoop l (a args) fuel false none st
      with ⟨st', log, vals⟩ | ⟨e, src, st', log, vals⟩ | _ <;>
      simp only [hlo] at hout
    · cases hout
      exact renderLoop_states_active l (a args) fuel false none st (Or.inl rfl) st'
        (by rw [hlo]; simp [LoopOut.states])
    · rcases htd : teardownHard st' with ⟨st2, terr⟩
      have hact' : st'.active = false :=
        renderLoop_states_active l (a args) fuel false none st (Or.inl rfl) st'
          (by rw [hlo]; simp [LoopOut.states])
      have h2 : st2.active = false := by
        have hta := teardownHard_active st'
        rw [htd] at hta
        exact hta.trans hact'
      simp only [htd] at hout
      cases terr with
      | some e2 =>
        cases hout
        exact h2
      | none =>
        cases hout
        exact h2
    · cases hout
  · intro fuel args st out hst hout
    simp only [renderAsync] at hout
    rcases hac : st.mem.applyStateChanges.2 with _ | _ <;> simp only [hac] at hout
    · cases hout
      exact hst
    · rcases hlo : renderLoop l (a args) fuel true none
          { st with mem := st.mem.applyStateChanges.1 }
        with ⟨st', log, vals⟩ | ⟨e, src, st', log, vals⟩ | _ <;>
        simp only [hlo] at hout
      · cases hout
        exact renderLoop_states_active l (a args) fuel true none
          { st with mem := st.mem.applyStateChanges.1 } (Or.inl rfl) st'
          (by rw [hlo]; simp [LoopOut.states])
      · rcases htd : teardownHard st' with ⟨st2, terr⟩
        have hact' : st'.active = false :=
          renderLoop_states_active l (a args) fuel true none
            { st with mem := st.mem.applyStateChanges.1 } (Or.inl rfl) st'
            (by rw [hlo]; simp [LoopOut.states])
        have h2 : st2.active = false := by
          have hta := teardownHard_active st'
          rw [htd] at hta
          exact hta.trans hact'
        simp only [htd] at hout
        cases terr with
        | some e2 =>
          cases hout
          exact h2
        | none =>
          cases hout
          exact h2
      · cases hout

/-- C8 witness: a plain agent returning 3, rendered from a fresh host. -/
theorem activeHost_cleared_witness :
    (runAgent (.ret 3) { HostState.init with active := true }).1.active = true ∧
    (⟨⟨⟨[], 0⟩, false, 0, 1⟩, [Event.value 3 false false], none⟩ :
      RenderOut).st.active = false :=
  ⟨(activeHost_cleared noThrowListener (fun _ => .ret 3)).1 (.ret 3) HostState.init,
   (activeHost_cleared noThrowListener (fun _ => .ret 3)).2.1 5 0 HostState.init
     ⟨⟨⟨[], 0⟩, false, 0, 1⟩, [Event.value 3 false false], none⟩ rfl⟩

/-- C2 (amended): in a render that stabilizes after several passes, only
the very last pass's value is emitted with the intermediate flag false;
every earlier pass's value is emitted as an intermediate value event, in
chronological order (earliest first). -/
theorem render_intermediate_order (fuel : Nat) (l : Listener)
    (a : Value → AgentProg) (args : Value) (st st' : HostState)
    (log : List Event) (vals : List Value)
    (h : renderLoop l (a args) fuel false none st = .done st' log vals)
    (hn : 2 ≤ vals.length) :
    render fuel l a args st = some ⟨st', log, none⟩ ∧
    ∃ inters last, vals = inters ++ [last] ∧ inters ≠ [] ∧
      log = inters.map (fun w => Event.value w false true) ++
        [Event.value last false false] := by
  refine ⟨by simp only [render, h], ?_⟩
  obtain ⟨inters, last, hv, hlg⟩ :=
    renderLoop_done_shape l (a args) fuel false none st st' log vals h
  refine ⟨inters, last, hv, ?_, by simpa [prevEmit] using hlg⟩
  intro hnil
  rw [hv, hnil] at hn
  simp at hn

/-- C2 counterexample: rendering `threePassAgent` (pass values 0, 1, 2),
the two intermediate events arrive earliest-first — the first intermediate
event carries the first pass's value 0, not the most recent earlier value
1, refuting the most-recent-first ordering. -/
theorem render_intermediate_order_counterexample :
    (render 10 noThrowListener threePassAgent 0 HostState.init).map RenderOut.log =
      some [Event.value 0 false true, Event.value 1 false true,
        Event.value 2 false false] ∧
    Event.value 0 false true ≠ Event.value 1 false true :=
  ⟨rfl, by decide⟩

/-- C2 witness: the three-pass agent from a fresh host. -/
theorem render_intermediate_order_witness :
    (renderLoop noThrowListener (threePassAgent 0) 10 false none HostState.init =
      .done ⟨⟨[.state 2 []], 0⟩, false, 0, 3⟩
        [Event.value 0 false true, Event.value 1 false true, Event.value 2 false false]
        [0, 1, 2]) ∧
    2 ≤ ([0, 1, 2] : List Value).length ∧
    (render 10 noThrowListener threePassAgent 0 HostState.init =
      some ⟨⟨⟨[.state 2 []], 0⟩, false, 0, 3⟩,
        [Event.value 0 false true, Event.value 1 false true, Event.value 2 false false],
        none⟩ ∧
    ∃ inters last, ([0, 1, 2] : List Value) = inters ++ [last] ∧ inters ≠ [] ∧
      [Event.value 0 false true, Event.value 1 false true, Event.value 2 false false] =
        inters.map (fun w => Event.value w false true) ++
          [Event.value last false false]) :=
  ⟨rfl, by decide,
   render_intermediate_order 10 noThrowListener threePassAgent 0 HostState.init
     ⟨⟨[.state 2 []], 0⟩, false, 0, 3⟩
     [Event.value 0 false true, Event.value 1 false true, Event.value 2 false false]
     [0, 1, 2] rfl (by decide)⟩

/-- C10 (amended): if the agent throws during a later convergence pass
after earlier passes produced values, the intermediate value events
already emitted are not retracted: provided the hard teardown's cleanups
do not throw and the listener accepts the error event, the listener
receives exactly those intermediate events in order followed by one error
event, and no value event with the intermediate flag false is emitted for
that render call. -/
theorem late_throw_keeps_intermediates (fuel : Nat) (l : Listener)
    (a : Value → AgentProg) (args : Value) (st st' : HostState) (e : Err)
    (log : List Event) (vals : List Value)
    (h : renderLoop l (a args) fuel false none st = .thrown e .agent st' log vals)
    (hv : vals ≠ [])
    (htd : (teardownHard st').2 = none)
    (hl : l (Event.error e false) = none) :
    render fuel l a args st =
      some ⟨(teardownHard st').1,
        vals.map (fun w => Event.value w false true) ++ [Event.error e false],
        none⟩ ∧
    vals.map (fun w => Event.value w false true) ≠ [] ∧
    ∀ v b, Event.value v b false ∉
      vals.map (fun w => Event.value w false true) ++ [Event.error e false] := by
  have hshape := renderLoop_thrown_shape l (a args) fuel false none st st' e .agent
    log vals h (by intro hc; cases hc)
  simp only [prevEmit, List.nil_append] at hshape
  refine ⟨?_, by simpa using hv, ?_⟩
  · simp only [render, h]
    rcases htd2 : teardownHard st' with ⟨st2, terr⟩
    rw [htd2] at htd
    simp only at htd
    subst htd
    simp [hl, hshape]
  · intro v b hmem
    rcases List.mem_append.1 hmem with hm | hm
    · obtain ⟨w, _, hw⟩ := List.mem_map.1 hm
      simp at hw
    · rw [List.mem_singleton] at hm
      cases hm

/-- C10 counterexample: when a cleanup stored by an earlier render throws
during the hard teardown, the agent's second-pass throw leaves the
already-emitted intermediate event followed by NO error event — the
teardown exception (99) escapes `render` instead. -/
theorem late_throw_no_error_event_counterexample :
    ((render 20 noThrowListener latePassThrowAgent 0 HostState.init).bind (fun o1 =>
      render 20 noThrowListener latePassThrowAgent 1 o1.st)).map
        (fun o => (o.log, o.escaped)) =
      some ([Event.value 0 false true], some 99) := by rfl

/-- C10 witness: an agent that completes one pass and throws on the
second, from a fresh host. -/
theorem late_throw_keeps_intermediates_witness :
    (renderLoop noThrowListener (secondPassThrowAgent 0) 10 false none HostState.init =
      .thrown 7 .agent ⟨⟨[.state 1 []], 1⟩, false, 0, 2⟩
        [Event.value 0 false true] [0]) ∧
    ([0] : List Value) ≠ [] ∧
    (teardownHard ⟨⟨[.state 1 []], 1⟩, false, 0, 2⟩).2 = none ∧
    noThrowListener (Event.error 7 false) = none ∧
    (render 10 noThrowListener secondPassThrowAgent 0 HostState.init =
      some ⟨(teardownHard ⟨⟨[.state 1 []], 1⟩, false, 0, 2⟩).1,
        ([0] : List Value).map (fun w => Event.value w false true) ++
          [Event.error 7 false], none⟩ ∧
    ([0] : List Value).map (fun w => Event.value w false true) ≠ [] ∧
    ∀ v b, Event.value v b false ∉
      ([0] : List Value).map (fun w => Event.value w false true) ++
        [Event.error 7 false]) :=
  ⟨rfl, by decide, rfl, rfl,
   late_throw_keeps_intermediates 10 noThrowListener secondPassThrowAgent 0
     HostState.init ⟨⟨[.state 1 []], 1⟩, false, 0, 2⟩ 7
     [Event.value 0 false true] [0] rfl (by decide) rfl rfl⟩

/-- C1 (amended): when the agent or any effect/cleanup invoked inside the
render procedure throws, and the subsequent hard teardown's cleanups do
not themselves throw and the listener accepts the error event, the
exception does not escape `render`: the Memory is fully discarded and the
listener receives the events emitted so far followed by exactly one error
event carrying the caught value with the async flag false. -/
theorem render_error_containment (fuel : Nat) (l : Listener)
    (a : Value → AgentProg) (args : Value) (st st' : HostState) (e : Err)
    (src : ThrowSrc) (log : List Event) (vals : List Value)
    (h : renderLoop l (a args) fuel false none st = .thrown e src st' log vals)
    (hsrc : src = .agent ∨ src = .effects)
    (htd : (teardownHard st').2 = none)
    (hl : l (Event.error e false) = none) :
    render fuel l a args st =
      some ⟨(teardownHard st').1, log ++ [Event.error e false], none⟩ ∧
    (teardownHard st').1.mem = Memory.empty ∧
    (log ++ [Event.error e false]).countP Event.isError = 1 := by
  refine ⟨?_, teardownHard_ok_mem st' htd, ?_⟩
  · simp only [render, h]
    rcases htd2 : teardownHard st' with ⟨st2, terr⟩
    rw [htd2] at htd
    simp only at htd
    subst htd
    simp [hl]
  · rw [List.countP_append]
    have hlog : log.countP Event.isError = 0 := by
      rw [List.countP_eq_zero]
      intro ev hev
      obtain ⟨w, b, i, hw⟩ := renderLoop_log_value l (a args) fuel false none st ev
        (by rw [h]; simpa [LoopOut.logOf] using hev)
      rw [hw]
      simp [Event.isError]
    rw [hlog]
    simp [Event.isError]

/-- C1 counterexample: after a first render stores an effect cleanup that
throws, a second render whose agent throws sees the hard teardown itself
throw: the exception (99) escapes `render` and no error event is emitted
at all. -/
theorem render_cleanup_throw_escapes :
    ((render 20 noThrowListener throwingCleanupAgent 0 HostState.init).bind (fun o1 =>
      render 20 noThrowListener throwingCleanupAgent 1 o1.st)).map
        (fun o => (o.escaped, o.log)) = some (some 99, []) := by rfl

/-- C1 witness: an agent that throws immediately, from a fresh host. -/
theorem render_error_containment_witness :
    (renderLoop noThrowListener ((fun _ => AgentProg.fail 7) (0 : Value)) 1 false none
      HostState.init = .thrown 7 .agent ⟨⟨[], 0⟩, false, 0, 1⟩ [] []) ∧
    (ThrowSrc.agent = ThrowSrc.agent ∨ ThrowSrc.agent = ThrowSrc.effects) ∧
    (teardownHard ⟨⟨[], 0⟩, false, 0, 1⟩).2 = none ∧
    noThrowListener (Event.error 7 false) = none ∧
    (render 1 noThrowListener (fun _ => .fail 7) 0 HostState.init =
      some ⟨(teardownHard ⟨⟨[], 0⟩, false, 0, 1⟩).1, [] ++ [Event.error 7 false], none⟩ ∧
    (teardownHard ⟨⟨[], 0⟩, false, 0, 1⟩).1.mem = Memory.empty ∧
    (([] : List Event) ++ [Event.error 7 false]).countP Event.isError = 1) :=
  ⟨rfl, Or.inl rfl, rfl, rfl,
   render_error_containment 1 noThrowListener (fun _ => .fail 7) 0 HostState.init
     ⟨⟨[], 0⟩, false, 0, 1⟩ 7 .agent [] [] rfl (Or.inl rfl) rfl rfl⟩

/-- C9 (amended): if the listener throws while handling an event emitted
during a synchronous render call (the final value event included), the
exception is caught inside `render` and — provided the teardown's
cleanups do not throw and the listener does not throw again on the error
event — does not escape: the Memory is torn down and the same listener is
invoked once more with an error event carrying the listener's thrown
value and the async flag false. -/
theorem listener_throw_containment (fuel : Nat) (l : Listener)
    (a : Value → AgentProg) (args : Value) (st st' : HostState) (e : Err)
    (log : List Event) (vals : List Value)
    (h : renderLoop l (a args) fuel false none st = .thrown e .listener st' log vals)
    (htd : (teardownHard st').2 = none)
    (hl : l (Event.error e false) = none) :
    render fuel l a args st =
      some ⟨(teardownHard st').1, log ++ [Event.error e false], none⟩ ∧
    (teardownHard st').1.mem = Memory.empty := by
  refine ⟨?_, teardownHard_ok_mem st' htd⟩
  simp only [render, h]
  rcases htd2 : teardownHard st' with ⟨st2, terr⟩
  rw [htd2] at htd
  simp only at htd
  subst htd
  simp [hl]

/-- C9 counterexample: a listener that throws on every event also throws
on the error event emitted by the catch block — that exception (5)
escapes `render`, refuting unconditional containment. -/
theorem listener_throw_escape_counterexample :
    (render 10 alwaysThrowListener (fun _ => .ret 3) 0 HostState.init).map
        (fun o => (o.escaped, o.log)) =
      some (some 5, [Event.value 3 false false, Event.error 5 false]) := by rfl

/-- C9 witness: a listener throwing 5 on the final value event only. -/
theorem listener_throw_containment_witness :
    (renderLoop finalThrowListener ((fun _ => AgentProg.ret 3) (0 : Value)) 10 false
      none HostState.init =
        .thrown 5 .listener ⟨⟨[], 0⟩, false, 0, 1⟩ [Event.value 3 false false] [3]) ∧
    (teardownHard ⟨⟨[], 0⟩, false, 0, 1⟩).2 = none ∧
    finalThrowListener (Event.error 5 false) = none ∧
    (render 10 finalThrowListener (fun _ => .ret 3) 0 HostState.init =
      some ⟨(teardownHard ⟨⟨[], 0⟩, false, 0, 1⟩).1,
        [Event.value 3 false false] ++ [Event.error 5 false], none⟩ ∧
    (teardownHard ⟨⟨[], 0⟩, false, 0, 1⟩).1.mem = Memory.empty) :=
  ⟨rfl, rfl, rfl,
   listener_throw_containment 10 finalThrowListener (fun _ => .ret 3) 0
     HostState.init ⟨⟨[], 0⟩, false, 0, 1⟩ 5 [Event.value 3 false false] [3]
     rfl rfl rfl⟩

/-- C7: for every sequence of `render` calls on a Host whose agent never
uses the state primitive, with a listener that does not throw, and whose
agent and effects do not throw (no call's events contain an error event),
the listener receives exactly one value event per render call, each with
the intermediate flag false and the async flag false. -/
theorem render_no_state_single_events (fuel : Nat) (l : Listener)
    (a : Value → AgentProg) :
    ∀ (argsList : List Value) (st : HostState)
      (out : HostState × List (List Event)),
      (∀ ev, l ev = none) →
      (∀ args, (a args).noState) →
      noStateCells st.mem = true →
      renderAll fuel l a argsList st = some out →
      (∀ log ∈ out.2, ∀ e b, Event.error e b ∉ log) →
      out.2.length = argsList.length ∧
        ∀ log ∈ out.2, ∃ v, log = [Event.value v false false] := by
  intro argsList
  induction argsList with
  | nil =>
    intro st out hl hp hm h herr
    simp only [renderAll] at h
    cases h
    exact ⟨rfl, by simp⟩
  | cons args rest ih =>
    intro st out hl hp hm h herr
    simp only [renderAll] at h
    rcases hr : render fuel l a args st with _ | o
    · simp only [hr] at h
      cases h
    · simp only [hr] at h
      rcases hesc : o.escaped with _ | e2
      · simp only [hesc] at h
        rcases hrec : renderAll fuel l a rest o.st with _ | p
        · simp only [hrec] at h
          cases h
        · simp only [hrec] at h
          rcases p with ⟨stF, logs⟩
          cases h
          cases fuel with
          | zero => simp [render, renderLoop] at hr
          | succ n =>
            rcases renderLoop_noState_spec l (a args) n false st (hp args) hm hl with
              ⟨v, st1, hdone, hm1⟩ | ⟨e, src, st1, hthr⟩
            · have hro : render (n + 1) l a args st =
                  some ⟨st1, [Event.value v false false], none⟩ := by
                simp only [render, hdone]
              rw [hro] at hr
              cases hr
              obtain ⟨hlen, hall⟩ := ih st1 (stF, logs) hl hp hm1 hrec
                (fun lg hlg e b => herr lg (List.mem_cons_of_mem _ hlg) e b)
              refine ⟨by simp [hlen], ?_⟩
              intro lg hlg
              rcases List.mem_cons.1 hlg with rfl | hmem
              · exact ⟨v, rfl⟩
              · exact hall lg hmem
            · rcases htd : teardownHard st1 with ⟨st2, terr⟩
              cases terr with
              | some e2 =>
                have hro : render (n + 1) l a args st = some ⟨st2, [], some e2⟩ := by
                  simp only [render, hthr, htd]
                rw [hro] at hr
                cases hr
                simp at hesc
              | none =>
                have hro : render (n + 1) l a args st =
                    some ⟨st2, [] ++ [Event.error e false], none⟩ := by
                  simp only [render, hthr, htd, hl]
                rw [hro] at hr
                cases hr
                have hin : Event.error e false ∈
                    (⟨st2, [] ++ [Event.error e false], none⟩ : RenderOut).log := by
                  simp
                exact absurd hin (herr _ (List.mem_cons_self _ _) e false)
      · simp only [hesc] at h
        cases h

/-- C7 witness: the agent returning its argument, rendered twice. -/
theorem render_no_state_single_events_witness :
    (∀ ev, noThrowListener ev = none) ∧
    (∀ args : Value, ((fun w => AgentProg.ret w) args).noState) ∧
    noStateCells HostState.init.mem = true ∧
    renderAll 5 noThrowListener (fun w => .ret w) [4, 5] HostState.init =
      some (⟨⟨[], 0⟩, false, 0, 2⟩,
        [[Event.value 4 false false], [Event.value 5 false false]]) ∧
    (∀ log ∈ [[Event.value 4 false false], [Event.value 5 false false]],
      ∀ e b, Event.error e b ∉ log) ∧
    (([[Event.value 4 false false], [Event.value 5 false false]] :
        List (List Event)).length = ([4, 5] : List Value).length ∧
      ∀ log ∈ [[Event.value 4 false false], [Event.value 5 false false]],
        ∃ v, log = [Event.value v false false]) :=
  ⟨fun _ => rfl, fun _ => trivial, rfl, rfl,
   by
     intro log hlg e b
     rcases List.mem_cons.1 hlg with rfl | hlg2
     · simp
     · rcases List.mem_cons.1 hlg2 with rfl | hlg3
       · simp
       · simp at hlg3,
   render_no_state_single_events 5 noThrowListener (fun w => .ret w) [4, 5]
     HostState.init (⟨⟨[], 0⟩, false, 0, 2⟩,
       [[Event.value 4 false false], [Event.value 5 false false]])
     (fun _ => rfl) (fun _ => trivial) rfl rfl
     (by
       intro log hlg e b
       rcases List.mem_cons.1 hlg with rfl | hlg2
       · simp
       · rcases List.mem_cons.1 hlg2 with rfl | hlg3
         · simp
         · simp at hlg3)⟩

end Batis
